import Mathlib

/-!
Verification of the mcp-gateway repository: a shallow embedding of the
storage backend (`storage/memory.py`), server registry (`server/registry.py`),
tool search service (`tools/search.py`), tool router (`tools/router.py`),
orchestrator gateway tools (`mcp_orchestrator/mcp_server.py`) and the
bootstrap loader's discovery write (`config_loader.py`), together with
theorems settling the frozen claims about them.

Strings are modelled as Lean `String`/`List Char`; all inputs considered are
ASCII, so Python's `str.lower` is modelled by an ASCII lowering map.
Python dictionaries are modelled as insertion-ordered association lists whose
update keeps the position of an existing key, exactly as Python dicts do.
Scores of the BM25-style search are modelled twice.  The fixed-point model
stores ten times the exact rational score as a natural number: every
contribution the source adds (8.0, 4.0, 15.0, 5.0, 0.5 per occurrence,
2.0, 1.0) is a multiple of 0.5 (`bm25_score_multiple_of_five` below, in
tenths); IEEE doubles represent such values exactly and add them without
rounding, so the in-loop accumulation of the source is exact, and the
post-scalings by 2.0, 1.8 = 9/5 and 1.4 = 7/5 are exact on such values in
rational arithmetic.  The source, however, performs the final `*= 1.8` and
`*= 1.4` in doubles, where the product rounds once to 53 significant bits;
scores that tie in exact arithmetic across different scaling rules can
therefore be strictly ordered as doubles (17.5 * 1.8 is exactly 31.5 while
22.5 * 1.4 rounds just below it).  The float model
(`calculateBm25ScoreF64` below) reproduces this bit-exactly: it stores the
value of the resulting double scaled by 2^64, rounding the final scaling
and the `len(keywords) * 0.7` threshold to 53 significant bits, round half
to even, so comparisons of doubles coincide with comparisons of the scaled
naturals.  The fixed-point model is used where the ordering is insensitive
to the final rounding (score gaps of at least one tenth, as in the C4
counterexample); the float model settles tie-breaking.
-/

namespace McpGateway

/-! ## String and list utilities -/

/-- ASCII lowercase of a character, modelling `str.lower` on ASCII text. -/
def lowerChar (c : Char) : Char :=
  if 'A' ≤ c ∧ c ≤ 'Z' then Char.ofNat (c.toNat + 32) else c

/-- ASCII lowercase of a character list. -/
def lowerL (s : List Char) : List Char := s.map lowerChar

/-- ASCII lowercase of a string, modelling `str.lower`. -/
def lowerS (s : String) : String := ⟨lowerL s.data⟩

/-- `startsWithL p s` holds when `p` is an initial segment of `s`
(Python `str.startswith`). -/
def startsWithL : List Char → List Char → Bool
  | [], _ => true
  | _ :: _, [] => false
  | p :: ps, c :: cs => p = c && startsWithL ps cs

/-- `containsSub s sub` models Python `sub in s` (substring containment). -/
def containsSub : List Char → List Char → Bool
  | s, sub =>
    startsWithL sub s ||
      match s with
      | [] => false
      | _ :: rest => containsSub rest sub

/-- Fuel-indexed helper for `countSub`; the fuel only bounds the recursion
depth (each step consumes at least one character of `s`), so
`countSub` below always supplies enough. -/
def countSubF : Nat → List Char → List Char → Nat
  | 0, _, _ => 0
  | f + 1, s, sub =>
    match s with
    | [] => 0
    | c :: rest =>
      if sub ≠ [] ∧ startsWithL sub (c :: rest) then
        1 + countSubF f (rest.drop (sub.length - 1)) sub
      else
        countSubF f rest sub

/-- Number of non-overlapping occurrences of `sub` in `s`, scanning left to
right: Python `str.count` for non-empty `sub` (the service only counts
non-empty keywords). -/
def countSub (s sub : List Char) : Nat := countSubF s.length s sub

/-- String wrapper for `containsSub`. -/
def containsS (s sub : String) : Bool := containsSub s.data sub.data

/-- String wrapper for `countSub`. -/
def countS (s sub : String) : Nat := countSub s.data sub.data

/-- String wrapper for `startsWithL`. -/
def startsWithS (s pre : String) : Bool := startsWithL pre.data s.data

/-- Split at the first occurrence of separator `sep`: Python
`s.split(sep, 1)` when `sep` occurs in `s`. -/
def splitFirst (sep : List Char) : List Char → Option (List Char × List Char)
  | [] => if sep = [] then some ([], []) else none
  | c :: rest =>
    if startsWithL sep (c :: rest) then
      some ([], (c :: rest).drop sep.length)
    else
      match splitFirst sep rest with
      | some (l, r) => some (c :: l, r)
      | none => none

/-- Whitespace test used by Python `str.split()` for the ASCII fragment. -/
def isSpaceChar (c : Char) : Bool :=
  c = ' ' || c = '\t' || c = '\n' || c = '\r'

/-- Split on whitespace runs dropping empties: Python `str.split()`. -/
def splitWs (s : List Char) : List (List Char) :=
  (s.splitOnP (fun c => isSpaceChar c)).filter (· ≠ [])

/-- Strip the given characters from both ends: Python `str.strip(chars)`. -/
def stripChars (chars : List Char) (s : List Char) : List Char :=
  ((s.dropWhile (· ∈ chars)).reverse.dropWhile (· ∈ chars)).reverse

/-- Replace each occurrence of character `a` by `b`:
Python `str.replace(a, b)` for single characters. -/
def replaceChar (a b : Char) (s : List Char) : List Char :=
  s.map (fun c => if c = a then b else c)

/-- Fuel-indexed helper for `globMatch`; every recursive call strictly
shrinks `ps.length + s.length`, so fuel `ps.length + s.length` never runs
out. -/
def globMatchF : Nat → List Char → List Char → Bool
  | _, [], [] => true
  | _, [], _ :: _ => false
  | 0, _ :: _, _ => false
  | f + 1, p :: ps, s =>
    if p = '*' then
      match s with
      | [] => globMatchF f ps []
      | _ :: cs => globMatchF f ps s || globMatchF f ('*' :: ps) cs
    else
      match s with
      | [] => false
      | c :: cs => (if p = '?' then true else p = c) && globMatchF f ps cs

/-- Glob matching with `*` and `?`, modelling `fnmatch.fnmatch` for patterns
that do not use character classes (the only patterns the gateway builds). -/
def globMatch (ps s : List Char) : Bool :=
  globMatchF (ps.length + s.length) ps s

/-- String wrapper for `globMatch`: `fnmatch.fnmatch name pat`. -/
def fnmatchS (name pat : String) : Bool := globMatch pat.data name.data

/-- Insertion-ordered association-list update: a present key keeps its
position and gets the new value, a fresh key is appended.  This is exactly
the update behaviour of a Python `dict`. -/
def upsert (k : String) (v : α) : List (String × α) → List (String × α)
  | [] => [(k, v)]
  | (k', v') :: rest =>
    if k' = k then (k, v) :: rest else (k', v') :: upsert k v rest

/-- First value bound to `k`, if any (`dict.get`). -/
def lookupKV (k : String) : List (String × α) → Option α
  | [] => none
  | (k', v) :: rest => if k' = k then some v else lookupKV k rest

/-- Remove the binding of `k` (`dict.pop(k, None)`). -/
def removeKV (k : String) : List (String × α) → List (String × α)
  | [] => []
  | (k', v) :: rest =>
    if k' = k then removeKV k rest else (k', v) :: removeKV k rest

/-! ## Data model (`models.py`)

`ServerRegistration`, `ServerInfo`, `AuthConfig`, tool dictionaries and
`ToolReference`, with pydantic `model_dump`/`model_validate` round-trips
modelled as the identity.  The `header_prefix` field of `AuthConfig` is
spelled `header_pre` here; no code path reads it. -/

/-- `AuthConfig` (`models.py`): `type ∈ {none, static, forward}`. -/
structure AuthConfig where
  type : String := "none"
  headers : Option (List (String × String)) := none
  header_name : Option String := some "Authorization"
  header_pre : Option String := some "Bearer"
  deriving Repr, DecidableEq

/-- `ServerRegistration` (`models.py`). -/
structure ServerRegistration where
  name : String
  url : String
  transport : String := "http"
  command : Option String := none
  args : Option (List String) := none
  env : Option (List (String × String)) := none
  connection_mode : String := "stateless"
  auth : AuthConfig := {}
  auto_discover : Bool := true
  loading_mode : String := "eager"
  deriving Repr, DecidableEq

/-- `ServerInfo` (`models.py`); `registered_at` and `last_health_check`
carry the model's abstract clock values. -/
structure ServerInfo where
  name : String
  url : String
  transport : String := "http"
  command : Option String := none
  args : Option (List String) := none
  env : Option (List (String × String)) := none
  connection_mode : String
  auth_type : String
  status : String
  registered_at : Nat
  last_health_check : Option Nat := none
  tool_count : Nat := 0
  error_message : Option String := none
  deriving Repr, DecidableEq

/-- One property of a JSON-schema `properties` map, keeping the parts the
search service reads: an optional `description` and an optional `enum`
(entries already stringified). -/
structure PropSchema where
  description : Option String := none
  enumVals : Option (List String) := none
  deriving Repr, DecidableEq

/-- The fragment of a JSON schema object the gateway reads:
`properties` (an ordered dict) and `required`. -/
structure Schema where
  properties : List (String × PropSchema) := []
  required : List String := []
  deriving Repr, DecidableEq

/-- A discovered tool dictionary `{name, description, input_schema}` as
produced by `_extract_tools_from_response`. -/
structure Tool where
  name : String
  description : String := ""
  input_schema : Schema := {}
  deriving Repr, DecidableEq

/-- The tool-metadata dictionary written by
`ServerRegistry.store_tool_metadata`. -/
structure ToolMeta where
  namespaced_name : String
  server_name : String
  tool_name : String
  description : String
  input_schema : Schema
  deriving Repr, DecidableEq

/-- `ToolReference` (`models.py`). -/
structure ToolReference where
  server_name : String
  tool_name : String
  namespaced_name : String
  description : String
  input_schema : Schema
  defer_loading : Bool := true
  deriving Repr, DecidableEq

/-! ## In-memory storage backend (`storage/memory.py`)

`InMemoryStorage` holds a scalar dict `_data`, a TTL dict `_expires` and a
separate hash dict `_hashes`.  Values are the sum type `GVal` covering every
shape the gateway stores.  `time.time()` is modelled by an explicit `now`
argument to the operations that consult the clock; operations that can evict
expired keys return the updated store. -/

/-- A stored value: a server record, an auth config, a tool bundle, or a
tool-metadata entry. -/
inductive GVal where
  | srv (s : ServerInfo)
  | auth (a : AuthConfig)
  | tools (ts : List Tool)
  | meta (m : ToolMeta)
  deriving Repr, DecidableEq

/-- The state of `InMemoryStorage`. -/
structure Storage where
  data : List (String × GVal) := []
  expires : List (String × Nat) := []
  hashes : List (String × List (String × GVal)) := []
  deriving Repr, DecidableEq

namespace Storage

/-- `InMemoryStorage._is_expired`: reports whether `key` has expired and, if
so, evicts it from `_data` and `_expires`. -/
def isExpired (now : Nat) (st : Storage) (key : String) : Bool × Storage :=
  match lookupKV key st.expires with
  | some exp =>
    if now > exp then
      (true, { st with data := removeKV key st.data,
                       expires := removeKV key st.expires })
    else (false, st)
  | none => (false, st)

/-- `InMemoryStorage._cleanup_expired`: evict every expired key. -/
def cleanupExpired (now : Nat) (st : Storage) : Storage :=
  let expired := (st.expires.filter (fun ke => now > ke.2)).map Prod.fst
  { st with data := expired.foldl (fun d k => removeKV k d) st.data,
            expires := expired.foldl (fun e k => removeKV k e) st.expires }

/-- `InMemoryStorage.get`. -/
def get (now : Nat) (st : Storage) (key : String) : Option GVal × Storage :=
  let (e, st') := isExpired now st key
  if e then (none, st') else (lookupKV key st'.data, st')

/-- `InMemoryStorage.set`; `ttl = some 0` behaves like no TTL because the
source tests `if ttl:` (Python truthiness). -/
def set (now : Nat) (st : Storage) (key : String) (v : GVal)
    (ttl : Option Nat := none) : Storage :=
  let data := upsert key v st.data
  match ttl with
  | some t =>
    if t ≠ 0 then { st with data, expires := upsert key (now + t) st.expires }
    else { st with data, expires := removeKV key st.expires }
  | none => { st with data, expires := removeKV key st.expires }

/-- `InMemoryStorage.delete`: acts on the scalar dict `_data` only. -/
def delete (st : Storage) (key : String) : Bool × Storage :=
  if (lookupKV key st.data).isSome then
    (true, { st with data := removeKV key st.data,
                     expires := removeKV key st.expires })
  else (false, st)

/-- `InMemoryStorage.exists`. -/
def existsKey (now : Nat) (st : Storage) (key : String) : Bool × Storage :=
  let (e, st') := isExpired now st key
  if e then (false, st') else ((lookupKV key st'.data).isSome, st')

/-- `InMemoryStorage.keys`: sweep expired keys, then list the scalar keys
matching the glob pattern (`"*"` is the same as matching everything). -/
def keysOp (now : Nat) (st : Storage) (pat : String) :
    List String × Storage :=
  let st' := cleanupExpired now st
  ((st'.data.map Prod.fst).filter (fun k => fnmatchS k pat), st')

/-- `InMemoryStorage.hget`. -/
def hget (st : Storage) (key field : String) : Option GVal :=
  match lookupKV key st.hashes with
  | some h => lookupKV field h
  | none => none

/-- `InMemoryStorage.hset`. -/
def hset (st : Storage) (key field : String) (v : GVal) : Storage :=
  match lookupKV key st.hashes with
  | some h => { st with hashes := upsert key (upsert field v h) st.hashes }
  | none => { st with hashes := upsert key [(field, v)] st.hashes }

/-- `InMemoryStorage.hgetall`. -/
def hgetall (st : Storage) (key : String) : List (String × GVal) :=
  (lookupKV key st.hashes).getD []

/-- `InMemoryStorage.hdel`. -/
def hdel (st : Storage) (key field : String) : Bool × Storage :=
  match lookupKV key st.hashes with
  | some h =>
    if (lookupKV field h).isSome then
      (true, { st with hashes := upsert key (removeKV field h) st.hashes })
    else (false, st)
  | none => (false, st)

end Storage

/-! ## Server registry (`server/registry.py`)

The registry wraps a `Storage`.  Async sequencing in the source is plain
sequential state passing here.  Pydantic validation of a value the registry
itself wrote is the identity, so `model_validate ∘ model_dump` disappears. -/

/-- `ServerRegistry._servers_key`. -/
def serversKey : String := "gateway:servers"

/-- Storage key for a server's auth hash. -/
def authKey (name : String) : String :=
  "gateway:server:" ++ name ++ ":auth"

/-- Storage key for a server's tool bundle. -/
def toolsKey (name : String) : String :=
  "gateway:server:" ++ name ++ ":tools"

/-- Storage key for one tool's metadata. -/
def metaKey (ns : String) : String := "gateway:tool_meta:" ++ ns

namespace Registry

open Storage

/-- `ServerRegistry.get`: read the server record from the servers hash. -/
def getSrv (st : Storage) (name : String) : Option ServerInfo :=
  match st.hget serversKey name with
  | some (GVal.srv s) => some s
  | _ => none

/-- `ServerRegistry.register` at clock value `now`; `Except.error` is the
`ValueError` raised on a name conflict.  The state is returned alongside so
the conflict branch visibly leaves it unchanged. -/
def register (now : Nat) (st : Storage) (reg : ServerRegistration) :
    Except String ServerInfo × Storage :=
  match getSrv st reg.name with
  | some _ =>
    (Except.error ("Server '" ++ reg.name ++ "' already registered"), st)
  | none =>
    let info : ServerInfo :=
      { name := reg.name, url := reg.url, transport := reg.transport,
        command := reg.command, args := reg.args, env := reg.env,
        connection_mode := reg.connection_mode, auth_type := reg.auth.type,
        status := "unknown", registered_at := now, tool_count := 0 }
    let st1 := st.hset serversKey reg.name (GVal.srv info)
    let st2 :=
      if reg.auth.type ≠ "none" then
        st1.hset (authKey reg.name) "config" (GVal.auth reg.auth)
      else st1
    (Except.ok info, st2)

/-- `ServerRegistry.get_auth_config`. -/
def getAuthConfig (st : Storage) (name : String) : Option AuthConfig :=
  match st.hget (authKey name) "config" with
  | some (GVal.auth a) => some a
  | _ => none

/-- `ServerRegistry.get_tools`: `tools or []`. -/
def getTools (now : Nat) (st : Storage) (name : String) :
    List Tool × Storage :=
  match st.get now (toolsKey name) with
  | (some (GVal.tools ts), st') => (ts, st')
  | (_, st') => ([], st')

/-- `ServerRegistry.store_tool_metadata`. -/
def storeToolMetadata (now : Nat) (st : Storage)
    (serverName toolName : String) (tool : Tool) : Storage :=
  let ns := serverName ++ "__" ++ toolName
  st.set now (metaKey ns)
    (GVal.meta { namespaced_name := ns, server_name := serverName,
                 tool_name := toolName, description := tool.description,
                 input_schema := tool.input_schema })

/-- `ServerRegistry.store_tools`: write the bundle, then metadata for every
tool whose `name` is truthy (non-empty). -/
def storeTools (now : Nat) (st : Storage) (name : String)
    (tools : List Tool) : Storage :=
  let st1 := st.set now (toolsKey name) (GVal.tools tools)
  tools.foldl
    (fun s t => if t.name ≠ "" then storeToolMetadata now s name t.name t
                else s)
    st1

/-- `ServerRegistry.get_tool_metadata`. -/
def getToolMetadata (now : Nat) (st : Storage) (ns : String) :
    Option ToolMeta × Storage :=
  match st.get now (metaKey ns) with
  | (some (GVal.meta m), st') => (some m, st')
  | (_, st') => (none, st')

/-- `ServerRegistry.get_all_tool_metadata`: scan `gateway:tool_meta:*` and
collect the values found (every reachable value under these keys is a
metadata entry). -/
def getAllToolMetadata (now : Nat) (st : Storage) :
    List ToolMeta × Storage :=
  let (ks, st1) := st.keysOp now "gateway:tool_meta:*"
  ks.foldl
    (fun (acc : List ToolMeta × Storage) k =>
      match acc.2.get now k with
      | (some (GVal.meta m), st') => (acc.1 ++ [m], st')
      | (_, st') => (acc.1, st'))
    ([], st1)

/-- `ServerRegistry.remove_tool_metadata`: delete every key matching
`gateway:tool_meta:{name}__*`. -/
def removeToolMetadata (now : Nat) (st : Storage) (name : String) :
    Storage :=
  let (ks, st1) := st.keysOp now (metaKey name ++ "__*")
  ks.foldl (fun s k => (s.delete k).2) st1

/-- `ServerRegistry.unregister`. -/
def unregister (now : Nat) (st : Storage) (name : String) :
    Bool × Storage :=
  match getSrv st name with
  | none => (false, st)
  | some _ =>
    let st1 := (st.hdel serversKey name).2
    let st2 := (st1.delete (authKey name)).2
    let st3 := (st2.delete (toolsKey name)).2
    let st4 := removeToolMetadata now st3 name
    (true, st4)

/-- `ServerRegistry.update_tool_count`. -/
def updateToolCount (st : Storage) (name : String) (count : Nat) :
    Bool × Storage :=
  match getSrv st name with
  | none => (false, st)
  | some s =>
    (true, st.hset serversKey name (GVal.srv { s with tool_count := count }))

end Registry

/-! ## Tool search service (`tools/search.py`)

The in-memory index `_tools` is an insertion-ordered dict
`namespaced_name → tool data`.  `search_regex` compiles the query with
`re.IGNORECASE`; compilation and matching of the resulting pattern are
modelled by an abstract matcher `String → Bool` applied to
`searchable_text`, and `literalMatcher` instantiates it for
metacharacter-free patterns (case-insensitive substring search, which is
exactly `re.search` for such patterns).  `search_bm25` is modelled in its
scoring branch (the `whoosh` import succeeded); when the import fails the
source delegates to `search_regex` over the keywords joined by `".*"`. -/

/-- One entry of `ToolSearchService._tools`. -/
structure IndexedTool where
  server_name : String
  tool_name : String
  namespaced_name : String
  description : String
  input_schema : Schema
  searchable_text : String
  defer_loading : Bool := true
  deriving Repr, DecidableEq

/-- The `_tools` dict of `ToolSearchService`. -/
abbrev SearchState := List (String × IndexedTool)

namespace Search

/-- `ToolSearchService._build_searchable_text`.  The source reads
`tool_data.get("tool_name") or tool_data.get("name", "")`; both call sites
resolve this to the tool's name, passed here as `toolName`.  Joining uses
`" ".join(filter(None, parts))`: empty parts are skipped. -/
def buildSearchableText (applyWeighting : Bool) (toolName description : String)
    (schema : Schema) : String :=
  let parts :=
    (if applyWeighting ∧ toolName ≠ "" then [toolName] else []) ++ [toolName] ++
    (if applyWeighting ∧ description ≠ "" then [description] else []) ++
      [description] ++
    (schema.properties.foldl
      (fun acc p =>
        acc ++ [p.1] ++
        (match p.2.description with | some d => [d] | none => []) ++
        (match p.2.enumVals with | some es => es | none => []))
      []) ++
    schema.required
  String.intercalate " " (parts.filter (· ≠ ""))

/-- `ToolSearchService.index_tool`. -/
def indexTool (serverName : String) (tool : Tool) (idx : SearchState) :
    SearchState :=
  let ns := serverName ++ "__" ++ tool.name
  upsert ns
    { server_name := serverName, tool_name := tool.name,
      namespaced_name := ns, description := tool.description,
      input_schema := tool.input_schema,
      searchable_text :=
        buildSearchableText true tool.name tool.description tool.input_schema }
    idx

/-- `ToolSearchService.index_tools`. -/
def indexTools (serverName : String) (tools : List Tool)
    (idx : SearchState) : SearchState :=
  tools.foldl (fun i t => indexTool serverName t i) idx

/-- `ToolSearchService.index_tool_metadata`. -/
def indexToolMetadata (m : ToolMeta) (idx : SearchState) : SearchState :=
  if m.namespaced_name = "" then idx
  else
    upsert m.namespaced_name
      { server_name := m.server_name, tool_name := m.tool_name,
        namespaced_name := m.namespaced_name, description := m.description,
        input_schema := m.input_schema,
        searchable_text :=
          buildSearchableText false m.tool_name m.description m.input_schema }
      idx

/-- `ToolSearchService.index_all_metadata`. -/
def indexAllMetadata (ms : List ToolMeta) (idx : SearchState) : SearchState :=
  ms.foldl (fun i m => indexToolMetadata m i) idx

/-- Build a `ToolReference` from an index entry, as every search result
constructor in the source does. -/
def toRef (t : IndexedTool) : ToolReference :=
  { server_name := t.server_name, tool_name := t.tool_name,
    namespaced_name := t.namespaced_name, description := t.description,
    input_schema := t.input_schema, defer_loading := t.defer_loading }

/-- `ToolSearchService.search_regex` with the compiled pattern abstracted to
`matcher`: collect, in index order, the tools whose `searchable_text` the
pattern matches, then truncate to `limit`. -/
def searchRegexM (matcher : String → Bool) (limit : Nat)
    (idx : SearchState) : List ToolReference :=
  (((idx.map Prod.snd).filter (fun t => matcher t.searchable_text)).map
    toRef).take limit

/-- `re.search` of a case-insensitively compiled, metacharacter-free pattern:
case-insensitive substring containment. -/
def literalMatcher (pat : String) (text : String) : Bool :=
  containsSub (lowerL text.data) (lowerL pat.data)

/-- The `STOP_WORDS` set literal, transcribed in source order (the source's
duplicates are kept; membership is unaffected). -/
def stopWords : List String :=
  ["a", "an", "and", "are", "as", "at", "be", "by", "can", "could", "did",
   "do", "does", "for", "from", "had", "has", "have", "he", "her", "him",
   "his", "how", "i", "if", "in", "into", "is", "it", "its", "may", "might",
   "must", "my", "no", "not", "of", "on", "or", "our", "shall", "she",
   "should", "so", "some", "such", "than", "that", "the", "their", "them",
   "then", "there", "these", "they", "this", "those", "to", "too", "was",
   "we", "were", "what", "when", "where", "which", "who", "whom", "whose",
   "will", "with", "would", "you", "your", "get", "me", "myself",
   "yourself", "himself", "herself", "itself", "ourselves", "themselves",
   "am", "being", "been", "having", "do", "does", "did", "doing", "a",
   "an", "the", "and", "but", "if", "or", "because", "as", "until",
   "while", "of", "at", "by", "for", "with", "about", "against",
   "between", "into", "through", "during", "before", "after", "above",
   "below", "up", "down", "in", "out", "on", "off", "over", "under",
   "again", "further", "then", "once", "here", "there", "all", "any",
   "both", "each", "few", "more", "most", "other", "some", "such", "no",
   "nor", "not", "only", "own", "same", "than", "too", "very", "just",
   "should", "now"]

/-- Word character of the `re` module's `\w` (ASCII). -/
def isWordChar (c : Char) : Bool :=
  ('a' ≤ c && c ≤ 'z') || ('A' ≤ c && c ≤ 'Z') ||
  ('0' ≤ c && c ≤ '9') || c = '_'

/-- Character admitted by the token pattern `[a-zA-Z_]`. -/
def isAlphaTok (c : Char) : Bool :=
  ('a' ≤ c && c ≤ 'z') || ('A' ≤ c && c ≤ 'Z') || c = '_'

/-- Maximal runs of word characters. -/
def wordRuns (s : List Char) : List (List Char) :=
  (s.splitOnP (fun c => !isWordChar c)).filter (· ≠ [])

/-- `re.findall(r"\b[a-zA-Z_]+\b", s)`: the maximal word-character runs that
consist only of `[a-zA-Z_]` (a run touching a digit has no word boundary
inside it, so it contributes no match). -/
def findTokens (s : List Char) : List (List Char) :=
  (wordRuns s).filter (fun r => r.all isAlphaTok)

/-- `ToolSearchService._extract_keywords`. -/
def extractKeywords (text : String) : List String :=
  ((findTokens (lowerL text.data)).map (fun w => (⟨w⟩ : String))).filter
    (fun w => !stopWords.contains w && w.length > 2)

/-- The `semantic_boosts` table. -/
def semanticBoosts : List (String × List String) :=
  [("search", ["query", "find", "lookup", "fetch", "get"]),
   ("query", ["search", "find", "lookup"]),
   ("documentation", ["docs", "document", "guide", "reference", "manual"]),
   ("docs", ["documentation", "document", "guide"]),
   ("library", ["package", "module", "dependency"]),
   ("mcp", ["model", "context", "protocol"])]

/-- The per-keyword accumulation step of `_calculate_bm25_score`, updating
`(score, name_matches, desc_matches)`; `name`, `desc`, `stext` are the
lowercased tool name, description and searchable text.  Scores are in
tenths of the source's float value: `8.0 ↦ 80`, `4.0 ↦ 40`, `15.0 ↦ 150`,
`5.0 ↦ 50`, `0.5 ↦ 5`, `2.0 ↦ 20`, `1.0 ↦ 10`. -/
def scoreStep (name desc stext : String) (acc : Nat × Nat × Nat)
    (k : String) : Nat × Nat × Nat :=
  let score := acc.1
  let nm := acc.2.1
  let dm := acc.2.2
  let (score, nm) :=
    if containsS name k then
      (score + 80 + (if startsWithS name k then 40 else 0), nm + 1)
    else (score, nm)
  let (score, dm) :=
    if containsS desc k then
      (score + 150 +
        (if containsSub (desc.data.take 100) k.data then 50 else 0),
       dm + 1)
    else (score, dm)
  let score := score + countS stext k * 5
  let score :=
    match lookupKV k semanticBoosts with
    | some equivs =>
      equivs.foldl
        (fun sc e => sc + ((if containsS name e then 50 else 0) +
          (if containsS desc e then 80 else 0)))
        score
    | none => score
  let nameWords :=
    splitWs (replaceChar '-' ' ' (replaceChar '_' ' ' name.data))
  let score :=
    nameWords.foldl
      (fun sc w => sc +
        (if (stripChars [' ', '\t', '\n', '\r'] w).length > 3 ∧
            containsSub (stripChars [' ', '\t', '\n', '\r'] w) k.data ∧
            stripChars [' ', '\t', '\n', '\r'] w ≠ k.data
         then 20 else 0))
      score
  let descWords := splitWs desc.data
  let score :=
    descWords.foldl
      (fun sc w => sc +
        (if (stripChars ['.', ',', ';', ':'] w).length > 3 ∧
            containsSub (stripChars ['.', ',', ';', ':'] w) k.data ∧
            stripChars ['.', ',', ';', ':'] w ≠ k.data
         then 10 else 0))
      score
  (score, nm, dm)

/-- `ToolSearchService._calculate_bm25_score`, in tenths of the float
value.  The post-scalings `*= 2.0`, `*= 1.8`, `*= 1.4` are `* 2`,
`* 9 / 5` and `* 7 / 5`; both divisions are exact because the accumulated
score is a multiple of five tenths (`bm25_score_multiple_of_five`).  The
guard `name_matches + desc_matches >= len(keywords) * 0.7` is the exact
integer comparison `10 * (nm + dm) ≥ 7 * len`.  This exact-rational
reading of the scaling diverges from the source's IEEE doubles exactly
when scores from different scaling rules tie in exact arithmetic: the
doubles round `*= 1.8` and `*= 1.4` once and order such ties strictly.
`calculateBm25ScoreF64` models the rounding; this model is sound for any
ordering with score gaps of at least one tenth. -/
def calculateBm25Score (query : String) (t : IndexedTool) : Nat :=
  let kws := extractKeywords query
  if kws = [] then 0
  else
    let name := lowerS t.tool_name
    let desc := lowerS t.description
    let stext := lowerS t.searchable_text
    let r := kws.foldl (scoreStep name desc stext) (0, 0, 0)
    let score := r.1
    let nm := r.2.1
    let dm := r.2.2
    if nm > 0 ∧ dm > 0 then score * 2
    else if dm ≥ kws.length then score * 9 / 5
    else if 10 * (nm + dm) ≥ 7 * kws.length then score * 7 / 5
    else score

/-- Stable insertion into a list sorted by descending score: the new element
goes after every element of strictly greater or equal-and-earlier score.
With `sortDescQ` below this is Python's stable `sort(reverse=True)`. -/
def insertDescQ (x : Nat × IndexedTool) :
    List (Nat × IndexedTool) → List (Nat × IndexedTool)
  | [] => [x]
  | y :: ys => if y.1 > x.1 then y :: insertDescQ x ys else x :: y :: ys

/-- Stable sort by descending score (`list.sort(key=score, reverse=True)`). -/
def sortDescQ (l : List (Nat × IndexedTool)) : List (Nat × IndexedTool) :=
  l.foldr insertDescQ []

/-- `ToolSearchService.search_bm25` in its scoring branch: score every
indexed tool, keep positive scores in index order, stable-sort descending,
truncate to `limit`, build references. -/
def searchBm25 (query : String) (limit : Nat) (idx : SearchState) :
    List ToolReference :=
  let scored :=
    (idx.map Prod.snd).filterMap
      (fun t =>
        let s := calculateBm25Score query t
        if s > 0 then some (s, t) else none)
  ((sortDescQ scored).take limit).map (fun p => toRef p.2)

end Search

/-! ## Tool router (`tools/router.py`)

The router is modelled up to the point where a downstream MCP session would
be opened: `callTool` either fails (invalid URL, unsupported transport) or
produces the `RouterRequest` describing the single downstream call —
transport, target, tool, arguments and outgoing headers.  The downstream
result itself is an oracle applied to that request, matching the source's
`_process_tool_result`, which returns the raw result unchanged.  Header
dictionaries use `[]` for Python's `None`/`{}` (both falsy, and every
consumer runs them through `auth_headers or {}`); the client auth header
uses `""` for Python's `None`/`""` (both falsy). -/

/-- Opaque tool-call arguments, forwarded verbatim. -/
abbrev Args := List (String × String)

/-- The router's configuration (`ToolRouter.__init__`). -/
structure RouterConfig where
  gateway_auth_mode : String := "auto"
  gateway_transport : String := "stdio"
  deriving Repr, DecidableEq

/-- The downstream call a successful `call_tool` performs: for `http`/`sse`
the target is the URL, for `stdio` the command. -/
structure RouterRequest where
  transport : String
  target : String
  tool_name : String
  arguments : Args
  runArgs : List String := []
  runEnv : List (String × String) := []
  headers : List (String × String) := []
  deriving Repr, DecidableEq

namespace Router

/-- `ToolRouter._should_forward_auth` (the `server_transport` argument is
accepted and ignored, as in the source). -/
def shouldForwardAuth (cfg : RouterConfig) (_serverTransport : String) :
    Bool :=
  if cfg.gateway_auth_mode = "static" then false
  else if cfg.gateway_auth_mode = "forward" then true
  else cfg.gateway_transport = "http" ∨ cfg.gateway_transport = "streamable-http"

/-- `ToolRouter._get_effective_auth_headers`. -/
def getEffectiveAuthHeaders (cfg : RouterConfig)
    (serverAuthHeaders : List (String × String)) (clientAuthHeader : String)
    (serverTransport : String) : List (String × String) :=
  let shouldForward := shouldForwardAuth cfg serverTransport
  if shouldForward ∧ clientAuthHeader ≠ "" then
    [("Authorization", clientAuthHeader)]
  else if serverAuthHeaders ≠ [] then serverAuthHeaders
  else []

/-- `ToolRouter.call_tool`: resolve the effective auth headers — with
`client_auth_header=None`, hard-coded at the call in the source — and build
the downstream request for the given transport.  `Except.error` carries the
`ToolCallError` message. -/
def callTool (cfg : RouterConfig) (serverName serverUrl toolName : String)
    (arguments : Args) (transport : String) (command : Option String)
    (args : Option (List String)) (env : Option (List (String × String)))
    (authHeaders : List (String × String)) : Except String RouterRequest :=
  let effectiveAuth := getEffectiveAuthHeaders cfg authHeaders "" transport
  if transport = "http" then
    if startsWithS serverUrl "http://" ∨ startsWithS serverUrl "https://" then
      Except.ok { transport := "http", target := serverUrl,
                  tool_name := toolName, arguments,
                  headers := effectiveAuth }
    else
      Except.error ("Invalid HTTP URL for server '" ++ serverName ++ "': " ++
        serverUrl)
  else if transport = "stdio" then
    let stdioCommand :=
      match command with
      | some c => if c ≠ "" then c else serverUrl
      | none => serverUrl
    Except.ok { transport := "stdio", target := stdioCommand,
                tool_name := toolName, arguments,
                runArgs := (args.getD []), runEnv := (env.getD []) }
  else if transport = "sse" then
    Except.ok { transport := "sse", target := serverUrl,
                tool_name := toolName, arguments,
                headers := effectiveAuth }
  else
    Except.error ("Unsupported transport '" ++ transport ++ "' for server '" ++
      serverName ++ "'")

end Router

/-! ## Orchestrator gateway tools (`mcp_orchestrator/mcp_server.py`)

`MCPOrchestratorServer` state observable by the claims: the `_active_tools`
set and the sequence of live tool registrations made on the outer FastMCP
framework.  Registry reads inside these handlers (`get`, `get_auth_config`,
`get_tool_metadata`) are hash/scalar reads that do not mutate the store, so
they appear as pure lookups. -/

/-- Orchestrator-side mutable state: the `_active_tools` set and the log of
`self._mcp.tool(name=...)` registrations. -/
structure OrchState where
  active_tools : List String := []
  mcp_registered : List String := []
  deriving Repr, DecidableEq

namespace Orch

/-- `MCPOrchestratorServer._create_dynamic_tool`, observed through its
effect on the outer framework: it registers a tool under the namespaced
name rebuilt as `f"{server_name}__{tool_name}"` (which equals the name the
caller split, since the split was on the first `"__"`). -/
def createDynamicTool (ns : String) (ost : OrchState) : OrchState :=
  { ost with mcp_registered := ost.mcp_registered ++ [ns] }

/-- `MCPOrchestratorServer._activate_tools_from_refs`; `getMeta` is the
registry read `get_tool_metadata`, constant during activation. -/
def activateToolsFromRefs (getMeta : String → Option ToolMeta)
    (refs : List ToolReference) (ost : OrchState) : OrchState :=
  refs.foldl
    (fun ost ref =>
      let ns := ref.namespaced_name
      if ost.active_tools.contains ns then ost
      else if !containsS ns "__" then ost
      else
        match getMeta ns with
        | none => ost
        | some _ =>
          let ost := createDynamicTool ns ost
          { ost with active_tools := ns :: ost.active_tools })
    ost

/-- Outcome of `self._tool_search.search(...)` as seen by `tool_search`'s
`try`: a result list, a `ValueError` (invalid regex pattern), or any other
exception. -/
inductive SearchExc where
  | valueError (msg : String)
  | otherExc (msg : String)
  deriving Repr, DecidableEq

/-- The `tool_search` response dict: either a failure with an `error_code`,
or a success carrying the `tool_reference` blocks (one `tool_name` each),
the full `tools` entries, `total_matches`, `query` and `search_type`. -/
inductive TSResponse where
  | failure (error_code : String) (error_msg : String)
  | success (tool_references : List String)
      (tools : List (String × String × Schema)) (total_matches : Nat)
      (query : String) (search_type : String)
  deriving Repr, DecidableEq

/-- The `tool_search` gateway tool.  `searchCall` stands for
`self._tool_search.search` applied to `(query, limit, use_regex)`; its
`Except.error` cases are the two `except` clauses. -/
def toolSearch (searchCall : String → Nat → Bool → Except SearchExc (List ToolReference))
    (getMeta : String → Option ToolMeta) (query : String) (maxResults : Int)
    (useRegex : Bool) (ost : OrchState) : TSResponse × OrchState :=
  let clamped := max 1 (min 10 maxResults)
  if query.length > 200 then
    (TSResponse.failure "query_too_long" "Query exceeds 200 character limit",
     ost)
  else
    match searchCall query clamped.toNat useRegex with
    | Except.error (SearchExc.valueError m) =>
      (TSResponse.failure "invalid_pattern" ("Invalid regex pattern: " ++ m),
       ost)
    | Except.error (SearchExc.otherExc m) =>
      (TSResponse.failure "unavailable" ("Search service error: " ++ m), ost)
    | Except.ok refs =>
      let ost' := activateToolsFromRefs getMeta refs ost
      (TSResponse.success (refs.map (·.namespaced_name))
        (refs.map (fun r => (r.namespaced_name, r.description, r.input_schema)))
        refs.length query (if useRegex then "regex" else "bm25"), ost')

/-- The `call_remote_tool` gateway tool, up to the downstream call: it
validates and splits the namespaced name, looks the server up, resolves the
auth headers, and hands everything to `ToolRouter.call_tool`, whose
`RouterRequest` it returns.  `authHeader = ""` models Python `None` (and the
equally falsy empty string). -/
def callRemoteTool (st : Storage) (cfg : RouterConfig) (toolName : String)
    (argumentsOpt : Option Args) (authHeader : String) :
    Except String RouterRequest :=
  let arguments := argumentsOpt.getD []
  if !containsS toolName "__" then
    Except.error ("Invalid tool name format '" ++ toolName ++
      "'. Expected format: 'server_name__tool_name'")
  else
    match splitFirst "__".data toolName.data with
    | none =>
      Except.error ("Invalid tool name format '" ++ toolName ++
        "'. Expected format: 'server_name__tool_name'")
    | some (srv, actual) =>
      let serverName : String := ⟨srv⟩
      let actualToolName : String := ⟨actual⟩
      match Registry.getSrv st serverName with
      | none =>
        Except.error ("Server '" ++ serverName ++
          "' not found. Add it to server_config.json to register.")
      | some info =>
        let authHeaders :=
          if authHeader ≠ "" then [("Authorization", authHeader)]
          else
            match Registry.getAuthConfig st serverName with
            | some ac =>
              match ac.headers with
              | some hs => if hs ≠ [] then hs else []
              | none => []
            | none => []
        Router.callTool cfg serverName info.url actualToolName arguments
          info.transport info.command info.args info.env authHeaders

/-- Running `call_remote_tool` against a downstream oracle: the raw result
of the remote call is returned unmodified (`_process_tool_result` is the
identity). -/
def runCallRemoteTool {α : Type} (oracle : RouterRequest → α) (st : Storage)
    (cfg : RouterConfig) (toolName : String) (argumentsOpt : Option Args)
    (authHeader : String) : Except String α :=
  (callRemoteTool st cfg toolName argumentsOpt authHeader).map oracle

end Orch

/-! ## Association-list lemmas -/

theorem lookupKV_upsert_self (k : String) (v : α) (l : List (String × α)) :
    lookupKV k (upsert k v l) = some v := by
  induction l with
  | nil => simp [upsert, lookupKV]
  | cons hd tl ih =>
    by_cases h : hd.1 = k
    · simp [upsert, h, lookupKV]
    · simp [upsert, h, lookupKV, ih]

theorem lookupKV_upsert_ne (h : k' ≠ k) (v : α) (l : List (String × α)) :
    lookupKV k' (upsert k v l) = lookupKV k' l := by
  induction l with
  | nil =>
    have h1 : ¬(k = k') := fun e => h e.symm
    simp [upsert, lookupKV, h1]
  | cons hd tl ih =>
    obtain ⟨a, b⟩ := hd
    simp only [upsert, lookupKV]
    by_cases ha : a = k
    · have h1 : ¬(k = k') := fun e => h e.symm
      have h2 : ¬(a = k') := ha ▸ h1
      simp [ha, lookupKV, h1, h2]
    · by_cases hb : a = k'
      · simp [ha, hb, lookupKV, h]
      · simp [ha, hb, lookupKV, ih]

theorem lookupKV_removeKV (x k : String) (l : List (String × α)) :
    lookupKV x (removeKV k l) = if x = k then none else lookupKV x l := by
  induction l with
  | nil => simp [removeKV, lookupKV]
  | cons hd tl ih =>
    obtain ⟨a, b⟩ := hd
    by_cases ha : a = k
    · subst ha
      by_cases hx : x = a
      · subst hx
        simp [removeKV, lookupKV, ih]
      · have h1 : ¬(a = x) := fun e => hx e.symm
        simp [removeKV, lookupKV, hx, ih, h1]
    · by_cases hb : a = x
      · subst hb
        simp [removeKV, lookupKV, ha]
      · simp [removeKV, lookupKV, ha, hb, ih]

theorem lookupKV_foldl_removeKV (x : String) (ks : List String)
    (l : List (String × α)) :
    lookupKV x (ks.foldl (fun d k => removeKV k d) l) =
      if x ∈ ks then none else lookupKV x l := by
  induction ks generalizing l with
  | nil => simp
  | cons k ks ih =>
    by_cases hx : x = k
    · subst hx
      simp [ih, lookupKV_removeKV]
    · by_cases hmem : x ∈ ks
      · simp [ih, lookupKV_removeKV, hx, hmem]
      · simp [ih, lookupKV_removeKV, hx, hmem]

theorem mem_keys_iff_lookupKV (k : String) (l : List (String × α)) :
    k ∈ l.map Prod.fst ↔ (lookupKV k l).isSome := by
  induction l with
  | nil => simp [lookupKV]
  | cons hd tl ih =>
    obtain ⟨a, b⟩ := hd
    by_cases h : a = k
    · simp [lookupKV, h]
    · simp [lookupKV, h, ih, Ne.symm h]

/-! ## C10: scalar and hash namespaces of the in-memory backend are
disjoint -/

/-- **C10.** In `InMemoryStorage`, scalar keys and hash keys are disjoint
namespaces: after `hset(k, f, v)` on a store where `k` was never `set` as a
scalar, `delete(k)` returns `False` and changes nothing — so `hget(k, f)`
still yields `v` and `hgetall(k)` is unchanged — `exists(k)` is `False`,
and `keys(pattern)` never lists `k`, which holds only hash fields. -/
theorem c10_hash_scalar_disjoint (st : Storage) (k f : String) (v : GVal)
    (now : Nat) (pat : String)
    (hd : lookupKV k st.data = none) :
    let st1 := st.hset k f v
    (st1.delete k).1 = false ∧
    (st1.delete k).2 = st1 ∧
    ((st1.delete k).2).hget k f = some v ∧
    ((st1.delete k).2).hgetall k = st1.hgetall k ∧
    (st1.existsKey now k).1 = false ∧
    k ∉ (st1.keysOp now pat).1 := by
  intro st1
  have hdata : st1.data = st.data := by
    simp [st1, Storage.hset]
    cases lookupKV k st.hashes <;> simp
  have hdel : st1.delete k = (false, st1) := by
    simp [Storage.delete, hdata, hd]
  have hhget : st1.hget k f = some v := by
    simp only [st1, Storage.hget, Storage.hset]
    cases hh : lookupKV k st.hashes <;>
      simp [lookupKV_upsert_self, lookupKV]
  refine ⟨by simp [hdel], by simp [hdel], by simp [hdel, hhget], by simp [hdel], ?_, ?_⟩
  · simp only [Storage.existsKey, Storage.isExpired]
    cases he : lookupKV k st1.expires with
    | none => simp [hdata, hd]
    | some exp =>
      by_cases hnow : now > exp
      · simp [hnow]
      · simp [hnow, hdata, hd]
  · simp only [Storage.keysOp, Storage.cleanupExpired]
    intro hmem
    have hmem' := List.mem_of_mem_filter hmem
    rw [mem_keys_iff_lookupKV, lookupKV_foldl_removeKV] at hmem'
    by_cases hin :
        k ∈ (st1.expires.filter (fun ke => now > ke.2)).map Prod.fst
    · simp [hin] at hmem'
    · simp [hin, hdata, hd] at hmem'

/-- Witness for C10 at a concrete store, key, field and value. -/
theorem c10_hash_scalar_disjoint_witness :
    lookupKV "k" ({} : Storage).data = none ∧
    (((({} : Storage).hset "k" "f" (GVal.auth {})).delete "k").1 = false ∧
      ((({} : Storage).hset "k" "f" (GVal.auth {})).existsKey 3 "k").1 =
        false) := by
  refine ⟨by decide, ?_⟩
  have h := c10_hash_scalar_disjoint ({} : Storage) "k" "f" (GVal.auth {})
    3 "*" (by decide)
  exact ⟨h.1, h.2.2.2.2.1⟩

/-! ## C2: router auth-mode resolution

`_get_effective_auth_headers` does follow the spec's mode table.  But
`call_tool` invokes it with `client_auth_header=None` hard-coded (the
docstring documents a `client_auth_header` argument that the signature does
not have, and the in-line comment says it "will be passed from the tool
call"), so the claim's concrete scenario — gateway transport `http`, mode
`auto`, server headers `Bearer S`, client header `Bearer C` — actually sends
`Bearer S`.  The mode table is proved, and the scenario is evaluated on the
code, exposing the divergence. -/

/-- **C2.** The auth mode table holds for `_get_effective_auth_headers`
(`static`: always the server headers; `forward`: the client header when
present, else the server headers, else none; `auto`: `forward` exactly for
gateway transport `http`/`streamable-http`, else `static`) — but the claim's
`call_tool` scenario fails: with gateway transport `http`, mode `auto`,
server headers `Bearer S` and a client sending `Bearer C`, `call_tool`
passes `client_auth_header=None`, so the outgoing headers are
`{Authorization: Bearer S}`, not `{Authorization: Bearer C}`. -/
theorem c2_auth_mode_table_and_call_tool_divergence :
    (∀ (gw tr c : String) (sh : List (String × String)),
      Router.getEffectiveAuthHeaders ⟨"static", gw⟩ sh c tr = sh) ∧
    (∀ (gw tr c : String) (sh : List (String × String)),
      Router.getEffectiveAuthHeaders ⟨"forward", gw⟩ sh c tr =
        if c ≠ "" then [("Authorization", c)] else sh) ∧
    (∀ (gw tr c : String) (sh : List (String × String)),
      Router.getEffectiveAuthHeaders ⟨"auto", gw⟩ sh c tr =
        if gw = "http" ∨ gw = "streamable-http" then
          Router.getEffectiveAuthHeaders ⟨"forward", gw⟩ sh c tr
        else Router.getEffectiveAuthHeaders ⟨"static", gw⟩ sh c tr) ∧
    ((Router.callTool ⟨"auto", "http"⟩ "srv" "https://x/mcp" "tool" []
        "http" none none none [("Authorization", "Bearer S")]).map
          (fun r => r.headers) =
      Except.ok [("Authorization", "Bearer S")]) := by
  refine ⟨?_, ?_, ?_, rfl⟩
  · intro gw tr c sh
    by_cases hsh : sh = [] <;>
      simp [Router.getEffectiveAuthHeaders, Router.shouldForwardAuth, hsh]
  · intro gw tr c sh
    by_cases hc : c = ""
    · by_cases hsh : sh = [] <;>
        simp [Router.getEffectiveAuthHeaders, Router.shouldForwardAuth,
          hc, hsh]
    · simp [Router.getEffectiveAuthHeaders, Router.shouldForwardAuth, hc]
  · intro gw tr c sh
    by_cases hgw : gw = "http" ∨ gw = "streamable-http" <;>
      simp [Router.getEffectiveAuthHeaders, Router.shouldForwardAuth, hgw]

/-! ## C7: `register` -/

theorem hget_hset_self (st : Storage) (k f : String) (v : GVal) :
    (st.hset k f v).hget k f = some v := by
  simp only [Storage.hset, Storage.hget]
  cases hh : lookupKV k st.hashes <;>
    simp [lookupKV_upsert_self, lookupKV]

theorem hget_hset_ne (st : Storage) (h : k' ≠ k) (f f' : String) (v : GVal) :
    (st.hset k f v).hget k' f' = st.hget k' f' := by
  simp only [Storage.hset, Storage.hget]
  cases hh : lookupKV k st.hashes <;>
    simp [lookupKV_upsert_ne h, hh]

theorem authKey_ne_serversKey (n : String) : authKey n ≠ serversKey := by
  intro h
  have hlen := congrArg String.length h
  have h1 : ("gateway:server:" : String).length = 15 := rfl
  have h2 : (":auth" : String).length = 5 := rfl
  have h3 : ("gateway:servers" : String).length = 15 := rfl
  simp [authKey, serversKey, String.length_append, h1, h2, h3] at hlen
  omega

theorem getSrv_hset_servers (st : Storage) (n : String) (info : ServerInfo) :
    Registry.getSrv (st.hset serversKey n (GVal.srv info)) n = some info := by
  simp [Registry.getSrv, hget_hset_self]

theorem getSrv_hset_auth (st : Storage) (m n f : String) (v : GVal) :
    Registry.getSrv (st.hset (authKey m) f v) n = Registry.getSrv st n := by
  simp [Registry.getSrv,
    hget_hset_ne st (Ne.symm (authKey_ne_serversKey m)) f n v]

theorem getAuthConfig_hset_servers (st : Storage) (n m : String) (v : GVal) :
    Registry.getAuthConfig (st.hset serversKey n v) m =
      Registry.getAuthConfig st m := by
  simp [Registry.getAuthConfig, hget_hset_ne st (authKey_ne_serversKey m) n]

theorem getAuthConfig_hset_auth_self (st : Storage) (m : String)
    (a : AuthConfig) :
    Registry.getAuthConfig (st.hset (authKey m) "config" (GVal.auth a)) m =
      some a := by
  simp [Registry.getAuthConfig, hget_hset_self]

/-- **C7.** `register(reg)` fails with a conflict error exactly when a record
named `reg.name` already exists, and then leaves the store unchanged;
otherwise it writes a record with `status="unknown"`, `tool_count=0` and
`registered_at` the current time, and writes the auth config iff
`reg.auth.type ≠ "none"`, so that — starting from a state with no auth
config under that name — `get` returns the new record and
`get_auth_config` returns `reg.auth` exactly when `reg.auth.type ≠ "none"`. -/
theorem c7_register_contract (now : Nat) (st : Storage)
    (reg : ServerRegistration) :
    ((Registry.getSrv st reg.name).isSome →
      (Registry.register now st reg).1 =
        Except.error ("Server '" ++ reg.name ++ "' already registered") ∧
      (Registry.register now st reg).2 = st) ∧
    (Registry.getSrv st reg.name = none →
      ∃ info : ServerInfo,
        (Registry.register now st reg).1 = Except.ok info ∧
        info.status = "unknown" ∧ info.tool_count = 0 ∧
        info.registered_at = now ∧ info.name = reg.name ∧
        info.auth_type = reg.auth.type ∧
        Registry.getSrv (Registry.register now st reg).2 reg.name =
          some info ∧
        (Registry.getAuthConfig st reg.name = none →
          Registry.getAuthConfig (Registry.register now st reg).2 reg.name =
            (if reg.auth.type ≠ "none" then some reg.auth else none))) := by
  constructor
  · intro hsome
    match hget : Registry.getSrv st reg.name with
    | some s => simp [Registry.register, hget]
    | none => rw [hget] at hsome; simp at hsome
  · intro hnone
    refine ⟨{ name := reg.name, url := reg.url, transport := reg.transport,
              command := reg.command, args := reg.args, env := reg.env,
              connection_mode := reg.connection_mode,
              auth_type := reg.auth.type, status := "unknown",
              registered_at := now, tool_count := 0 },
            ?_, rfl, rfl, rfl, rfl, rfl, ?_, ?_⟩
    · simp [Registry.register, hnone]
    · by_cases hauth : reg.auth.type = "none"
      · simp [Registry.register, hnone, hauth, getSrv_hset_servers]
      · simp [Registry.register, hnone, hauth, getSrv_hset_auth,
          getSrv_hset_servers]
    · intro hac
      by_cases hauth : reg.auth.type = "none"
      · simp [Registry.register, hnone, hauth, getAuthConfig_hset_servers,
          hac]
      · simp [Registry.register, hnone, hauth, getAuthConfig_hset_auth_self]

/-- Witness for C7: registering `s1` with a static auth config on the empty
store succeeds and both registry queries report the written values. -/
theorem c7_register_contract_witness :
    Registry.getSrv ({} : Storage) "s1" = none ∧
    Registry.getAuthConfig ({} : Storage) "s1" = none ∧
    ∃ info : ServerInfo,
      (Registry.register 5 ({} : Storage)
        { name := "s1", url := "https://x/mcp",
          auth := { type := "static",
                    headers := some [("Authorization", "Bearer X")] } }).1 =
        Except.ok info ∧
      info.status = "unknown" ∧ info.tool_count = 0 ∧
      info.registered_at = 5 := by
  refine ⟨by decide, by decide, ?_⟩
  have h := (c7_register_contract 5 ({} : Storage)
    { name := "s1", url := "https://x/mcp",
      auth := { type := "static",
                headers := some [("Authorization", "Bearer X")] } }).2
    (by decide)
  obtain ⟨info, h1, h2, h3, h4, _⟩ := h
  exact ⟨info, h1, h2, h3, h4⟩

/-! ## C1: `unregister` cleanup

`unregister` removes the server record (`hdel` on the servers hash), the
tool bundle and the metadata keys (scalar `delete`s), but it also uses a
scalar `delete` for `gateway:server:{name}:auth` — a key that `register`
wrote with `hset`, i.e. into the hash dict.  On `InMemoryStorage`, whose
`delete` only touches `_data`, the auth hash therefore survives, and
`get_auth_config` still returns the old config after `unregister`.  The
registry's own comment says this step "removes auth config", and on the
Redis backend (where `DEL` drops a key of any type) it does; the in-memory
backend is the slip.  The claim's scenario is evaluated on the code. -/

/-- **C1.** Unregistering an absent name returns `False` and changes
nothing.  After registering `s1` with a static auth config, storing one
tool and unregistering, the registry reports `get(s1)=absent`,
`get_tools(s1)=[]` and no metadata entry with `server_name=s1` — but
`get_auth_config(s1)` still returns the registered config, contradicting
the claim's `get_auth_config(s)=absent`. -/
theorem c1_unregister_cleanup_auth_survives :
    (∀ (now : Nat) (st : Storage) (n : String),
      Registry.getSrv st n = none →
      Registry.unregister now st n = (false, st)) ∧
    (let reg : ServerRegistration :=
      { name := "s1", url := "https://x/mcp",
        auth := { type := "static",
                  headers := some [("Authorization", "Bearer X")] } }
     let st2 := Registry.storeTools 6 (Registry.register 5 {} reg).2 "s1"
       [{ name := "t1", description := "d1" }]
     (Registry.unregister 7 st2 "s1").1 = true ∧
     Registry.getSrv (Registry.unregister 7 st2 "s1").2 "s1" = none ∧
     (Registry.getTools 8 (Registry.unregister 7 st2 "s1").2 "s1").1 = [] ∧
     ((Registry.getAllToolMetadata 8 (Registry.unregister 7 st2 "s1").2).1.filter
        (fun m => m.server_name = "s1")) = [] ∧
     Registry.getAuthConfig (Registry.unregister 7 st2 "s1").2 "s1" =
       some { type := "static",
              headers := some [("Authorization", "Bearer X")] }) := by
  constructor
  · intro now st n hnone
    simp [Registry.unregister, hnone]
  · exact ⟨by decide, by decide, by decide, by decide, by decide⟩

/-- Witness for C1's universally quantified branch: unregistering a name
absent from the empty store returns `False` and leaves it unchanged. -/
theorem c1_unregister_cleanup_auth_survives_witness :
    Registry.getSrv ({} : Storage) "ghost" = none ∧
    Registry.unregister 3 ({} : Storage) "ghost" = (false, {}) :=
  ⟨by decide, c1_unregister_cleanup_auth_survives.1 3 {} "ghost" (by decide)⟩

/-! ## C9: deferred activation is idempotent -/

/-- **C9.** For a namespaced name `ns` (containing `"__"`) with stored
metadata and not yet active, running `_activate_tools_from_refs` twice with
a reference to `ns` registers the live tool on the outer framework exactly
once, and `ns` is in the `active_tools` set afterwards. -/
theorem c9_activation_idempotent (getMeta : String → Option ToolMeta)
    (ost : OrchState) (r : ToolReference) (m : ToolMeta)
    (hsub : containsS r.namespaced_name "__" = true)
    (hmeta : getMeta r.namespaced_name = some m)
    (hactive : r.namespaced_name ∉ ost.active_tools) :
    (Orch.activateToolsFromRefs getMeta [r]
        (Orch.activateToolsFromRefs getMeta [r] ost)).mcp_registered.count
        r.namespaced_name =
      ost.mcp_registered.count r.namespaced_name + 1 ∧
    r.namespaced_name ∈
      (Orch.activateToolsFromRefs getMeta [r]
        (Orch.activateToolsFromRefs getMeta [r] ost)).active_tools := by
  have hc : ost.active_tools.contains r.namespaced_name = false := by
    simpa using hactive
  have h1 : Orch.activateToolsFromRefs getMeta [r] ost =
      { active_tools := r.namespaced_name :: ost.active_tools,
        mcp_registered := ost.mcp_registered ++ [r.namespaced_name] } := by
    simp [Orch.activateToolsFromRefs, Orch.createDynamicTool, hc, hsub,
      hmeta, hactive]
  have h2 : Orch.activateToolsFromRefs getMeta [r]
      (Orch.activateToolsFromRefs getMeta [r] ost) =
      Orch.activateToolsFromRefs getMeta [r] ost := by
    rw [h1]
    simp [Orch.activateToolsFromRefs]
  rw [h2, h1]
  simp

/-- Witness for C9 at a concrete metadata table, reference and state. -/
theorem c9_activation_idempotent_witness :
    (Orch.activateToolsFromRefs
        (fun s => if s = "a__b" then
          some { namespaced_name := "a__b", server_name := "a",
                 tool_name := "b", description := "", input_schema := {} }
          else none)
        [{ server_name := "a", tool_name := "b", namespaced_name := "a__b",
           description := "", input_schema := {} }]
        (Orch.activateToolsFromRefs
          (fun s => if s = "a__b" then
            some { namespaced_name := "a__b", server_name := "a",
                   tool_name := "b", description := "", input_schema := {} }
            else none)
          [{ server_name := "a", tool_name := "b", namespaced_name := "a__b",
             description := "", input_schema := {} }]
          {})).mcp_registered.count "a__b" = 0 + 1 := by
  have h := c9_activation_idempotent
    (fun s => if s = "a__b" then
      some { namespaced_name := "a__b", server_name := "a",
             tool_name := "b", description := "", input_schema := {} }
      else none)
    {}
    { server_name := "a", tool_name := "b", namespaced_name := "a__b",
      description := "", input_schema := {} }
    { namespaced_name := "a__b", server_name := "a", tool_name := "b",
      description := "", input_schema := {} }
    (by decide) (by decide) (by decide)
  simpa using h.1

/-! ## C6: `tool_search` boundary and error handling -/

/-- **C6.** `tool_search` clamps `max_results` into `[1, 10]`; a query
longer than 200 characters yields `query_too_long` without consulting the
search service (the result is the same for every `searchCall`); a
`ValueError` from the search (the invalid-regex case) yields
`invalid_pattern`; any other failure yields `unavailable`; and on success
the response is `success=True` with one `tool_reference` block per returned
tool and `total_matches` equal to the number of returned tools. -/
theorem c6_tool_search_contract
    (searchCall : String → Nat → Bool → Except Orch.SearchExc (List ToolReference))
    (getMeta : String → Option ToolMeta) (q : String) (m : Int) (u : Bool)
    (ost : OrchState) :
    (Orch.toolSearch searchCall getMeta q m u ost =
      Orch.toolSearch searchCall getMeta q (max 1 (min 10 m)) u ost) ∧
    (1 ≤ max 1 (min 10 m) ∧ max 1 (min 10 m) ≤ 10) ∧
    (m < 1 → max 1 (min 10 m) = 1) ∧
    (10 < m → max 1 (min 10 m) = 10) ∧
    (1 ≤ m → m ≤ 10 → max 1 (min 10 m) = m) ∧
    (q.length > 200 →
      Orch.toolSearch searchCall getMeta q m u ost =
        (Orch.TSResponse.failure "query_too_long"
          "Query exceeds 200 character limit", ost)) ∧
    (∀ msg, q.length ≤ 200 →
      searchCall q (max 1 (min 10 m)).toNat u =
        Except.error (Orch.SearchExc.valueError msg) →
      Orch.toolSearch searchCall getMeta q m u ost =
        (Orch.TSResponse.failure "invalid_pattern"
          ("Invalid regex pattern: " ++ msg), ost)) ∧
    (∀ msg, q.length ≤ 200 →
      searchCall q (max 1 (min 10 m)).toNat u =
        Except.error (Orch.SearchExc.otherExc msg) →
      Orch.toolSearch searchCall getMeta q m u ost =
        (Orch.TSResponse.failure "unavailable"
          ("Search service error: " ++ msg), ost)) ∧
    (∀ refs, q.length ≤ 200 →
      searchCall q (max 1 (min 10 m)).toNat u = Except.ok refs →
      (Orch.toolSearch searchCall getMeta q m u ost).1 =
        Orch.TSResponse.success (refs.map (·.namespaced_name))
          (refs.map (fun r => (r.namespaced_name, r.description,
            r.input_schema)))
          refs.length q (if u then "regex" else "bm25")) := by
  have hclamp : max 1 (min 10 (max 1 (min 10 m))) = max 1 (min 10 m) := by
    omega
  refine ⟨?_, ⟨le_max_left _ _, by omega⟩, fun h => by omega, fun h => by omega,
    fun h1 h2 => by omega, ?_, ?_, ?_, ?_⟩
  · simp only [Orch.toolSearch, hclamp]
  · intro hlen
    simp [Orch.toolSearch, hlen]
  · intro msg hlen hcall
    have : ¬(q.length > 200) := by omega
    simp [Orch.toolSearch, this, hcall]
  · intro msg hlen hcall
    have : ¬(q.length > 200) := by omega
    simp [Orch.toolSearch, this, hcall]
  · intro refs hlen hcall
    have : ¬(q.length > 200) := by omega
    simp [Orch.toolSearch, this, hcall]

/-- Witness for C6: a concrete over-limit `max_results` is clamped to 10 and
a successful search reports `total_matches` equal to the result count. -/
theorem c6_tool_search_contract_witness :
    max 1 (min 10 (25 : Int)) = 10 ∧
    (Orch.toolSearch
        (fun _ _ _ => Except.ok
          [{ server_name := "a", tool_name := "b", namespaced_name := "a__b",
             description := "d", input_schema := {} }])
        (fun _ => none) "weather" 25 false {}).1 =
      Orch.TSResponse.success ["a__b"] [("a__b", "d", {})] 1 "weather"
        "bm25" := by
  have h := c6_tool_search_contract
    (fun _ _ _ => Except.ok
      [{ server_name := "a", tool_name := "b", namespaced_name := "a__b",
         description := "d", input_schema := {} }])
    (fun _ => none) "weather" 25 false {}
  refine ⟨h.2.2.2.1 (by omega), ?_⟩
  have hs := h.2.2.2.2.2.2.2.2
    [{ server_name := "a", tool_name := "b", namespaced_name := "a__b",
       description := "d", input_schema := {} }]
    (by decide) rfl
  simpa using hs

/-! ## C5: `call_remote_tool` -/

theorem startsWithL_append (p s : List Char) (h : startsWithL p s = true) :
    s = p ++ s.drop p.length := by
  induction p generalizing s with
  | nil => simp
  | cons a p ih =>
    cases s with
    | nil => simp [startsWithL] at h
    | cons c cs =>
      simp only [startsWithL, Bool.and_eq_true, decide_eq_true_eq] at h
      obtain ⟨rfl, h2⟩ := h
      simpa using ih cs h2

/-- `splitFirst` really splits at the first occurrence: the input is
`l ++ sep ++ r` and no occurrence of `sep` starts before position
`l.length`. -/
theorem splitFirst_eq (sep s : List Char) (l r : List Char)
    (h : splitFirst sep s = some (l, r)) :
    s = l ++ sep ++ r ∧
    ∀ i, i < l.length → startsWithL sep (s.drop i) = false := by
  induction s generalizing l with
  | nil =>
    by_cases hsep : sep = []
    · simp [splitFirst, hsep] at h
      obtain ⟨rfl, rfl⟩ := h
      simp [hsep]
    · simp [splitFirst, hsep] at h
  | cons c rest ih =>
    by_cases hs : startsWithL sep (c :: rest) = true
    · simp [splitFirst, hs] at h
      obtain ⟨rfl, rfl⟩ := h
      refine ⟨by simpa using startsWithL_append sep (c :: rest) hs, ?_⟩
      intro i hi
      simp at hi
    · simp only [splitFirst, if_neg hs] at h
      cases hrec : splitFirst sep rest with
      | none => rw [hrec] at h; simp at h
      | some pr =>
        obtain ⟨l', r'⟩ := pr
        rw [hrec] at h
        simp at h
        obtain ⟨rfl, rfl⟩ := h
        obtain ⟨heq, hfirst⟩ := ih l' hrec
        refine ⟨by simpa using heq, ?_⟩
        intro i hi
        cases i with
        | zero => simpa using eq_false_of_ne_true hs
        | succ j =>
          simp only [List.length_cons, Nat.succ_lt_succ_iff] at hi
          simpa using hfirst j hi

theorem splitFirst_isSome_of_containsSub (s sep : List Char)
    (h : containsSub s sep = true) : (splitFirst sep s).isSome := by
  induction s with
  | nil =>
    unfold containsSub at h
    simp at h
    cases sep with
    | nil => simp [splitFirst]
    | cons a t => simp [startsWithL] at h
  | cons c rest ih =>
    unfold containsSub at h
    by_cases hs : startsWithL sep (c :: rest) = true
    · simp [splitFirst, hs]
    · simp [hs] at h
      have := ih h
      cases hrec : splitFirst sep rest with
      | none => rw [hrec] at this; simp at this
      | some pr => simp [splitFirst, hs, hrec]

/-- **C5.** `call_remote_tool` rejects names without `"__"` with the
invalid-tool-name error; otherwise the name splits as
`server ++ "__" ++ actual` at the *first* `"__"` (no occurrence starts
earlier), a missing server record yields the unknown-server error, and a
successful lookup delegates to the router with auth headers resolved as:
explicit `auth_header` → `{Authorization: auth_header}`, else the server's
registered static headers, else none.  On success the downstream oracle's
result is returned unmodified. -/
theorem c5_call_remote_tool_contract {α : Type} (oracle : RouterRequest → α)
    (st : Storage) (cfg : RouterConfig) (toolName : String)
    (argsOpt : Option Args) (ah : String) :
    (containsS toolName "__" = false →
      Orch.callRemoteTool st cfg toolName argsOpt ah =
        Except.error ("Invalid tool name format '" ++ toolName ++
          "'. Expected format: 'server_name__tool_name'")) ∧
    (containsS toolName "__" = true →
      ∃ srv act : String,
        toolName.data = srv.data ++ "__".data ++ act.data ∧
        (∀ i, i < srv.length →
          startsWithL "__".data (toolName.data.drop i) = false) ∧
        (Registry.getSrv st srv = none →
          Orch.callRemoteTool st cfg toolName argsOpt ah =
            Except.error ("Server '" ++ srv ++
              "' not found. Add it to server_config.json to register.")) ∧
        (∀ info, Registry.getSrv st srv = some info →
          Orch.callRemoteTool st cfg toolName argsOpt ah =
            Router.callTool cfg srv info.url act (argsOpt.getD [])
              info.transport info.command info.args info.env
              (if ah ≠ "" then [("Authorization", ah)]
               else
                 ((Registry.getAuthConfig st srv).bind
                   AuthConfig.headers).getD []))) ∧
    (∀ req, Orch.callRemoteTool st cfg toolName argsOpt ah = Except.ok req →
      Orch.runCallRemoteTool oracle st cfg toolName argsOpt ah =
        Except.ok (oracle req)) := by
  refine ⟨?_, ?_, ?_⟩
  · intro h
    simp [Orch.callRemoteTool, h]
  · intro h
    have hs := splitFirst_isSome_of_containsSub toolName.data "__".data h
    cases hsp : splitFirst "__".data toolName.data with
    | none => rw [hsp] at hs; simp at hs
    | some pr =>
      obtain ⟨ls, rs⟩ := pr
      obtain ⟨heq, hfirst⟩ := splitFirst_eq "__".data toolName.data ls rs hsp
      refine ⟨⟨ls⟩, ⟨rs⟩, heq, hfirst, ?_, ?_⟩
      · intro hnone
        simp [Orch.callRemoteTool, h, hsp, hnone]
      · intro info hinfo
        simp only [Orch.callRemoteTool, h, hsp, hinfo]
        have hauth :
            (if ah ≠ "" then [("Authorization", ah)]
             else
               match Registry.getAuthConfig st ⟨ls⟩ with
               | some ac =>
                 match ac.headers with
                 | some hs => if hs ≠ [] then hs else []
                 | none => []
               | none => []) =
            (if ah ≠ "" then [("Authorization", ah)]
             else
               ((Registry.getAuthConfig st ⟨ls⟩).bind
                 AuthConfig.headers).getD []) := by
          by_cases hah : ah = ""
          · cases hac : Registry.getAuthConfig st ⟨ls⟩ with
            | none => simp [hah]
            | some ac =>
              cases hh : ac.headers with
              | none => simp [hah, hh]
              | some l =>
                by_cases hl : l = [] <;> simp [hah, hh, hl]
          · simp [hah]
        rw [← hauth]
        simp [h]
  · intro req hok
    simp [Orch.runCallRemoteTool, hok, Except.map]

/-- Witness for C5: `call_remote_tool("noseparator")` on the empty store
fails with the invalid-tool-name error, and `"calc__add"` against a store
lacking `calc` fails with the unknown-server error. -/
theorem c5_call_remote_tool_contract_witness :
    containsS "noseparator" "__" = false ∧
    Orch.callRemoteTool {} {} "noseparator" none "" =
      Except.error ("Invalid tool name format '" ++ "noseparator" ++
        "'. Expected format: 'server_name__tool_name'") ∧
    Orch.callRemoteTool {} {} "calc__add" none "" =
      Except.error
        "Server 'calc' not found. Add it to server_config.json to register." := by
  refine ⟨by decide, ?_, rfl⟩
  exact (c5_call_remote_tool_contract (fun r => r) {} {} "noseparator"
    none "").1 (by decide)

/-! ## Glob and metadata-scan infrastructure for C3 and C4

`get_all_tool_metadata` scans `keys("gateway:tool_meta:*")`; the lemmas
below characterise that scan as a pure filter over the scalar dict. -/

theorem globMatchF_lit_star (lit : List Char) (hstar : '*' ∉ lit)
    (hq : '?' ∉ lit) :
    ∀ (s : List Char) (f : Nat), lit.length + 1 + s.length ≤ f →
      globMatchF f (lit ++ ['*']) s = startsWithL lit s := by
  induction lit with
  | nil =>
    intro s
    induction s with
    | nil =>
      intro f hf
      cases f with
      | zero => simp at hf
      | succ g => simp [globMatchF, startsWithL]
    | cons c cs ih =>
      intro f hf
      cases f with
      | zero => simp at hf
      | succ g =>
        have hg : ([] : List Char).length + 1 + cs.length ≤ g := by
          simp at hf ⊢; omega
        have h2 := ih g hg
        simp only [List.nil_append] at h2
        simp [globMatchF, startsWithL, h2]
  | cons a lit ih =>
    intro s f hf
    have ha1 : a ≠ '*' := fun h => hstar (h ▸ List.mem_cons_self a lit)
    have ha2 : a ≠ '?' := fun h => hq (h ▸ List.mem_cons_self a lit)
    have hstar' : '*' ∉ lit := fun h => hstar (List.mem_cons_of_mem a h)
    have hq' : '?' ∉ lit := fun h => hq (List.mem_cons_of_mem a h)
    cases f with
    | zero => simp at hf
    | succ g =>
      cases s with
      | nil => simp [globMatchF, ha1, startsWithL]
      | cons c cs =>
        have hg : lit.length + 1 + cs.length ≤ g := by
          simp at hf ⊢; omega
        simp [globMatchF, ha1, ha2, startsWithL,
          ih hstar' hq' cs g hg]

/-- For a pattern `lit ++ "*"` with a literal, metacharacter-free `lit`,
glob matching is exactly the prefix test. -/
theorem globMatch_lit_star (lit : List Char) (hstar : '*' ∉ lit)
    (hq : '?' ∉ lit) (s : List Char) :
    globMatch (lit ++ ['*']) s = startsWithL lit s := by
  have hlen : (lit ++ ['*']).length = lit.length + 1 := by simp
  apply globMatchF_lit_star lit hstar hq
  rw [hlen]

theorem startsWithL_append_self (p r : List Char) :
    startsWithL p (p ++ r) = true := by
  induction p with
  | nil => rfl
  | cons a p ih => simpa [startsWithL] using ih

/-- Extract the metadata payload of a stored value. -/
def toMetaOpt : GVal → Option ToolMeta
  | GVal.meta m => some m
  | _ => none

/-- The scan pattern of `get_all_tool_metadata`, as characters. -/
def metaLit : List Char := "gateway:tool_meta:".data

/-- Pure characterisation of the `get_all_tool_metadata` scan over a scalar
dict: the metadata payloads of the entries whose key matches
`gateway:tool_meta:*`, in dict order. -/
def metasOfData (d : List (String × GVal)) : List ToolMeta :=
  (d.filter (fun kv => globMatch (metaLit ++ ['*']) kv.1.data)).filterMap
    (fun kv => toMetaOpt kv.2)

theorem globMatch_metaPat (s : String) :
    globMatch (metaLit ++ ['*']) s.data = startsWithL metaLit s.data :=
  globMatch_lit_star metaLit (by decide) (by decide) s.data

theorem startsWithL_metaKey (ns : String) :
    startsWithL metaLit (metaKey ns).data = true :=
  startsWithL_append_self metaLit ns.data

theorem not_startsWithL_toolsKey (s : String) :
    startsWithL metaLit (toolsKey s).data = false := rfl

theorem metaKey_ne_toolsKey (x y : String) : metaKey x ≠ toolsKey y := by
  intro h
  have h8 : (metaKey x).data.get? 8 = (toolsKey y).data.get? 8 :=
    congrArg (fun str : String => str.data.get? 8) h
  have e1 : (metaKey x).data.get? 8 = some 't' := rfl
  have e2 : (toolsKey y).data.get? 8 = some 's' := rfl
  rw [e1, e2] at h8
  exact absurd h8 (by decide)

theorem string_append_left_cancel (p a b : String) (h : p ++ a = p ++ b) :
    a = b := by
  have hd' : p.data ++ a.data = p.data ++ b.data := congrArg String.data h
  have hab : a.data = b.data := List.append_cancel_left hd'
  cases a with
  | mk da =>
    cases b with
    | mk db => exact congrArg String.mk hab

theorem metaKey_name_inj (s a b : String)
    (h : metaKey (s ++ "__" ++ a) = metaKey (s ++ "__" ++ b)) : a = b := by
  have h1 := string_append_left_cancel "gateway:tool_meta:" _ _ h
  exact string_append_left_cancel (s ++ "__") _ _ h1

theorem cleanupExpired_no_expires (now : Nat) (st : Storage)
    (h : st.expires = []) : Storage.cleanupExpired now st = st := by
  cases st with
  | mk d e hs =>
    simp at h
    simp [Storage.cleanupExpired, h]

theorem get_no_expires (now : Nat) (st : Storage) (k : String)
    (h : st.expires = []) : st.get now k = (lookupKV k st.data, st) := by
  simp [Storage.get, Storage.isExpired, h, lookupKV]

theorem keysOp_no_expires (now : Nat) (st : Storage) (pat : String)
    (h : st.expires = []) :
    st.keysOp now pat =
      ((st.data.map Prod.fst).filter (fun k => fnmatchS k pat), st) := by
  simp [Storage.keysOp, cleanupExpired_no_expires now st h]

/-- The metadata payload(s) found under key `k` of dict `d` (zero or one). -/
def gatherD (d : List (String × GVal)) (k : String) : List ToolMeta :=
  match lookupKV k d with
  | some v => (toMetaOpt v).toList
  | none => []

theorem getAllToolMetadata_fold (now : Nat) (st : Storage)
    (h : st.expires = []) (ks : List String) (acc : List ToolMeta) :
    ks.foldl
      (fun (acc : List ToolMeta × Storage) k =>
        match acc.2.get now k with
        | (some (GVal.meta m), st') => (acc.1 ++ [m], st')
        | (_, st') => (acc.1, st'))
      (acc, st) =
    (acc ++ ks.flatMap (gatherD st.data), st) := by
  induction ks generalizing acc with
  | nil => simp
  | cons k ks ih =>
    simp only [List.foldl_cons, List.flatMap_cons]
    rw [get_no_expires now st k h]
    cases hlk : lookupKV k st.data with
    | none =>
      simp only [gatherD, hlk, Option.toList]
      rw [ih acc]
      simp
    | some v =>
      cases v with
      | meta m =>
        simp only [gatherD, hlk, toMetaOpt, Option.toList]
        rw [ih (acc ++ [m])]
        simp
      | srv s' =>
        simp only [gatherD, hlk, toMetaOpt, Option.toList]
        rw [ih acc]
        simp
      | auth a =>
        simp only [gatherD, hlk, toMetaOpt, Option.toList]
        rw [ih acc]
        simp
      | tools ts =>
        simp only [gatherD, hlk, toMetaOpt, Option.toList]
        rw [ih acc]
        simp

theorem bind_congr_mem {β : Type} (l : List String)
    (f g : String → List β) (h : ∀ k ∈ l, f k = g k) :
    l.flatMap f = l.flatMap g := by
  induction l with
  | nil => simp
  | cons a l ih =>
    simp only [List.flatMap_cons]
    rw [h a (List.mem_cons_self a l),
      ih (fun k hk => h k (List.mem_cons_of_mem a hk))]

theorem bind_gatherD_eq (d : List (String × GVal))
    (hnd : (d.map Prod.fst).Nodup) :
    ((d.map Prod.fst).filter
        (fun k => globMatch (metaLit ++ ['*']) k.data)).flatMap (gatherD d) =
      metasOfData d := by
  induction d with
  | nil => simp [metasOfData]
  | cons hd rest ih =>
    obtain ⟨k0, v0⟩ := hd
    simp only [List.map_cons, List.nodup_cons] at hnd
    obtain ⟨hk0, hnd'⟩ := hnd
    have hgather :
        ((rest.map Prod.fst).filter
            (fun k => globMatch (metaLit ++ ['*']) k.data)).flatMap
          (gatherD ((k0, v0) :: rest)) =
        ((rest.map Prod.fst).filter
            (fun k => globMatch (metaLit ++ ['*']) k.data)).flatMap
          (gatherD rest) := by
      apply bind_congr_mem
      intro k hk
      have hkmem : k ∈ rest.map Prod.fst := List.mem_of_mem_filter hk
      have hne : ¬(k0 = k) := fun e => hk0 (e ▸ hkmem)
      simp [gatherD, lookupKV, hne]
    by_cases hp : globMatch (metaLit ++ ['*']) k0.data = true
    · have hfil : (((k0, v0) :: rest).map Prod.fst).filter
          (fun k => globMatch (metaLit ++ ['*']) k.data) =
          k0 :: (rest.map Prod.fst).filter
            (fun k => globMatch (metaLit ++ ['*']) k.data) := by
        simp [hp]
      have hself : gatherD ((k0, v0) :: rest) k0 = (toMetaOpt v0).toList := by
        simp [gatherD, lookupKV]
      have hmeta : metasOfData ((k0, v0) :: rest) =
          (toMetaOpt v0).toList ++ metasOfData rest := by
        cases hto : toMetaOpt v0 with
        | none => simp [metasOfData, hp, hto]
        | some m => simp [metasOfData, hp, hto]
      rw [hfil, List.flatMap_cons, hself, hgather, ih hnd', hmeta]
    · have hp' : globMatch (metaLit ++ ['*']) k0.data = false := by
        simpa using hp
      have hfil : (((k0, v0) :: rest).map Prod.fst).filter
          (fun k => globMatch (metaLit ++ ['*']) k.data) =
          (rest.map Prod.fst).filter
            (fun k => globMatch (metaLit ++ ['*']) k.data) := by
        simp [hp']
      have hmeta : metasOfData ((k0, v0) :: rest) = metasOfData rest := by
        simp [metasOfData, hp']
      rw [hfil, hgather, ih hnd', hmeta]

/-- With no pending TTLs and distinct scalar keys, `get_all_tool_metadata`
returns exactly the metadata payloads of the `gateway:tool_meta:*` keys, in
dict order, leaving the store unchanged. -/
theorem getAllToolMetadata_eq (now : Nat) (st : Storage)
    (hexp : st.expires = []) (hnd : (st.data.map Prod.fst).Nodup) :
    Registry.getAllToolMetadata now st = (metasOfData st.data, st) := by
  have hpat : ∀ k : String,
      fnmatchS k "gateway:tool_meta:*" =
        globMatch (metaLit ++ ['*']) k.data := by
    intro k; rfl
  simp only [Registry.getAllToolMetadata, keysOp_no_expires now st _ hexp]
  rw [getAllToolMetadata_fold now st hexp]
  simp only [List.nil_append]
  congr 1
  have : (st.data.map Prod.fst).filter
      (fun k => fnmatchS k "gateway:tool_meta:*") =
      (st.data.map Prod.fst).filter
        (fun k => globMatch (metaLit ++ ['*']) k.data) := by
    apply List.filter_congr
    intro k _
    rw [hpat k]
  rw [this]
  exact bind_gatherD_eq st.data hnd

/-! ## Metadata counting (C3) -/

/-- Number of stored metadata entries whose `server_name` is `s`. -/
def metaCountFor (s : String) (d : List (String × GVal)) : Nat :=
  ((metasOfData d).filter (fun m => m.server_name = s)).length

theorem metasOfData_cons (k : String) (v : GVal) (d : List (String × GVal)) :
    metasOfData ((k, v) :: d) =
      (if globMatch (metaLit ++ ['*']) k.data then (toMetaOpt v).toList
       else []) ++ metasOfData d := by
  cases hglob : globMatch (metaLit ++ ['*']) k.data <;>
    cases hto : toMetaOpt v <;>
      simp [metasOfData, hglob, hto]

theorem metaCountFor_cons (s k : String) (v : GVal)
    (d : List (String × GVal)) :
    metaCountFor s ((k, v) :: d) =
      ((if globMatch (metaLit ++ ['*']) k.data then (toMetaOpt v).toList
        else []).filter (fun m => m.server_name = s)).length +
        metaCountFor s d := by
  simp [metaCountFor, metasOfData_cons, List.filter_append]

theorem metasOfData_upsert_nomatch (k : String) (v : GVal)
    (d : List (String × GVal))
    (hglob : globMatch (metaLit ++ ['*']) k.data = false) :
    metasOfData (upsert k v d) = metasOfData d := by
  induction d with
  | nil => simp [upsert, metasOfData, hglob]
  | cons hd rest ih =>
    obtain ⟨k0, v0⟩ := hd
    by_cases hk : k0 = k
    · subst hk
      have hup : upsert k0 v ((k0, v0) :: rest) = (k0, v) :: rest := by
        simp [upsert]
      rw [hup, metasOfData_cons, metasOfData_cons, hglob]
      simp
    · have hup : upsert k v ((k0, v0) :: rest) =
          (k0, v0) :: upsert k v rest := by
        simp [upsert, hk]
      rw [hup, metasOfData_cons, metasOfData_cons, ih]

theorem metaCount_upsert_meta (s k : String) (m : ToolMeta)
    (hm : m.server_name = s)
    (hglob : globMatch (metaLit ++ ['*']) k.data = true)
    (d : List (String × GVal))
    (hold : ∀ m', lookupKV k d = some (GVal.meta m') →
      m'.server_name ≠ s) :
    metaCountFor s (upsert k (GVal.meta m) d) = metaCountFor s d + 1 := by
  induction d with
  | nil =>
    simp [upsert, metaCountFor, metasOfData, hglob, toMetaOpt, hm]
  | cons hd rest ih =>
    obtain ⟨k0, v0⟩ := hd
    by_cases hk : k0 = k
    · subst hk
      have hup : upsert k0 (GVal.meta m) ((k0, v0) :: rest) =
          (k0, GVal.meta m) :: rest := by
        simp [upsert]
      rw [hup, metaCountFor_cons, metaCountFor_cons, hglob]
      cases v0 with
      | meta m' =>
        have hne := hold m' (by simp [lookupKV])
        simp [toMetaOpt, hm, hne, Nat.add_comm]
      | srv x => simp [toMetaOpt, hm, Nat.add_comm]
      | auth x => simp [toMetaOpt, hm, Nat.add_comm]
      | tools x => simp [toMetaOpt, hm, Nat.add_comm]
    · have hup : upsert k (GVal.meta m) ((k0, v0) :: rest) =
          (k0, v0) :: upsert k (GVal.meta m) rest := by
        simp [upsert, hk]
      rw [hup, metaCountFor_cons, metaCountFor_cons]
      have hold' : ∀ m', lookupKV k rest = some (GVal.meta m') →
          m'.server_name ≠ s := by
        intro m' hl
        exact hold m' (by simpa [lookupKV, hk] using hl)
      rw [ih hold']
      omega

/-- The metadata entry `store_tool_metadata` writes for tool `t` of server
`s` (the dict literal of the source, factored out for reuse in proofs). -/
def mkToolMeta (serverName toolName : String) (tool : Tool) : ToolMeta :=
  { namespaced_name := serverName ++ "__" ++ toolName,
    server_name := serverName, tool_name := toolName,
    description := tool.description, input_schema := tool.input_schema }

/-- The sequence of metadata upserts `store_tools` performs on the scalar
dict: one upsert per tool with a non-empty name. -/
def metaFold (s : String) (tools : List Tool)
    (d : List (String × GVal)) : List (String × GVal) :=
  tools.foldl
    (fun d t =>
      if t.name ≠ "" then
        upsert (metaKey (s ++ "__" ++ t.name))
          (GVal.meta (mkToolMeta s t.name t)) d
      else d)
    d

theorem lookupKV_mem (k : String) (d : List (String × α)) (v : α)
    (h : lookupKV k d = some v) : (k, v) ∈ d := by
  induction d with
  | nil => simp [lookupKV] at h
  | cons hd rest ih =>
    obtain ⟨k0, v0⟩ := hd
    by_cases hk : k0 = k
    · subst hk
      simp [lookupKV] at h
      simp [h]
    · simp [lookupKV, hk] at h
      exact List.mem_cons_of_mem _ (ih h)

theorem metaCount_metaFold (s : String) (tools : List Tool)
    (d : List (String × GVal))
    (hnames : ∀ t ∈ tools, t.name ≠ "")
    (hnodup : (tools.map Tool.name).Nodup)
    (hold : ∀ t ∈ tools, ∀ m',
      lookupKV (metaKey (s ++ "__" ++ t.name)) d = some (GVal.meta m') →
      m'.server_name ≠ s) :
    metaCountFor s (metaFold s tools d) = metaCountFor s d + tools.length := by
  induction tools generalizing d with
  | nil => simp [metaFold]
  | cons t rest ih =>
    simp only [List.map_cons, List.nodup_cons] at hnodup
    obtain ⟨htname, hnodup'⟩ := hnodup
    have hstep : metaCountFor s
        (upsert (metaKey (s ++ "__" ++ t.name))
          (GVal.meta (mkToolMeta s t.name t)) d) = metaCountFor s d + 1 := by
      apply metaCount_upsert_meta
      · rfl
      · rw [globMatch_metaPat]
        exact startsWithL_metaKey _
      · exact hold t (List.mem_cons_self t rest)
    have hrest : ∀ t' ∈ rest, ∀ m',
        lookupKV (metaKey (s ++ "__" ++ t'.name))
          (upsert (metaKey (s ++ "__" ++ t.name))
            (GVal.meta (mkToolMeta s t.name t)) d) = some (GVal.meta m') →
        m'.server_name ≠ s := by
      intro t' ht' m' hl
      have hkne : metaKey (s ++ "__" ++ t'.name) ≠
          metaKey (s ++ "__" ++ t.name) := by
        intro he
        have := metaKey_name_inj s t'.name t.name he
        exact htname (this ▸ List.mem_map_of_mem Tool.name ht')
      rw [lookupKV_upsert_ne hkne] at hl
      exact hold t' (List.mem_cons_of_mem t ht') m' hl
    have hn : t.name ≠ "" := hnames t (List.mem_cons_self t rest)
    have := ih _ (fun t' ht' => hnames t' (List.mem_cons_of_mem t ht'))
      hnodup' hrest
    simp only [metaFold, List.foldl_cons, if_pos hn] at this ⊢
    rw [this, hstep]
    simp [Nat.add_assoc, Nat.add_comm 1 rest.length]

theorem metaCountFor_zero (s : String) (d : List (String × GVal))
    (h : ∀ kv ∈ d, ∀ m : ToolMeta, kv.2 = GVal.meta m →
      m.server_name ≠ s) :
    metaCountFor s d = 0 := by
  induction d with
  | nil => simp [metaCountFor, metasOfData]
  | cons hd rest ih =>
    obtain ⟨k0, v0⟩ := hd
    rw [metaCountFor_cons]
    have hv0 : ((toMetaOpt v0).toList.filter
        (fun m' => m'.server_name = s)).length = 0 := by
      cases v0 with
      | meta m' =>
        have := h (k0, GVal.meta m') (List.mem_cons_self _ _) m' rfl
        simp [toMetaOpt, this]
      | srv x => simp [toMetaOpt]
      | auth x => simp [toMetaOpt]
      | tools x => simp [toMetaOpt]
    rw [ih (fun kv hkv => h kv (List.mem_cons_of_mem _ hkv))]
    cases hglob : globMatch (metaLit ++ ['*']) k0.data <;> simp [hv0]

/-! ## Structural lemmas about `store_tools` and `update_tool_count` -/

theorem hset_data (st : Storage) (k f : String) (v : GVal) :
    (st.hset k f v).data = st.data := by
  simp only [Storage.hset]
  cases lookupKV k st.hashes <;> rfl

theorem hset_expires (st : Storage) (k f : String) (v : GVal) :
    (st.hset k f v).expires = st.expires := by
  simp only [Storage.hset]
  cases lookupKV k st.hashes <;> rfl

theorem set_hashes (now : Nat) (st : Storage) (k : String) (v : GVal)
    (ttl : Option Nat) : (st.set now k v ttl).hashes = st.hashes := by
  simp only [Storage.set]
  cases ttl with
  | none => rfl
  | some t => by_cases ht : t ≠ 0 <;> simp [ht]

theorem set_data_none (now : Nat) (st : Storage) (k : String) (v : GVal) :
    (st.set now k v none).data = upsert k v st.data := rfl

theorem set_expires_none (now : Nat) (st : Storage) (k : String) (v : GVal) :
    (st.set now k v none).expires = removeKV k st.expires := rfl

theorem storeTools_hashes (now : Nat) (st : Storage) (s : String)
    (tools : List Tool) :
    (Registry.storeTools now st s tools).hashes = st.hashes := by
  simp only [Registry.storeTools]
  rw [show ∀ st' : Storage,
      (tools.foldl (fun st t => if t.name ≠ "" then
        Registry.storeToolMetadata now st s t.name t else st) st').hashes =
      st'.hashes from ?_, set_hashes]
  intro st'
  induction tools generalizing st' with
  | nil => rfl
  | cons t rest ih =>
    rw [List.foldl_cons]
    by_cases hn : t.name ≠ ""
    · rw [if_pos hn, ih]
      simp [Registry.storeToolMetadata, set_hashes]
    · rw [if_neg hn]
      exact ih st'

theorem storeTools_expires_nil (now : Nat) (st : Storage) (s : String)
    (tools : List Tool) (h : st.expires = []) :
    (Registry.storeTools now st s tools).expires = [] := by
  simp only [Registry.storeTools]
  have hbase : (st.set now (toolsKey s) (GVal.tools tools)).expires = [] := by
    rw [set_expires_none, h]; rfl
  generalize st.set now (toolsKey s) (GVal.tools tools) = st1 at hbase ⊢
  induction tools generalizing st1 with
  | nil => exact hbase
  | cons t rest ih =>
    rw [List.foldl_cons]
    by_cases hn : t.name ≠ ""
    · rw [if_pos hn]
      apply ih
      simp [Registry.storeToolMetadata, set_expires_none, hbase, removeKV]
    · rw [if_neg hn]
      exact ih st1 hbase

theorem storeTools_data (now : Nat) (st : Storage) (s : String)
    (tools : List Tool) :
    (Registry.storeTools now st s tools).data =
      metaFold s tools (upsert (toolsKey s) (GVal.tools tools) st.data) := by
  simp only [Registry.storeTools, metaFold]
  have hbase : (st.set now (toolsKey s) (GVal.tools tools)).data =
      upsert (toolsKey s) (GVal.tools tools) st.data := rfl
  generalize st.set now (toolsKey s) (GVal.tools tools) = st1 at hbase
  rw [← hbase]
  clear hbase
  induction tools generalizing st1 with
  | nil => rfl
  | cons t rest ih =>
    rw [List.foldl_cons, List.foldl_cons]
    by_cases hn : t.name ≠ ""
    · rw [if_pos hn, if_pos hn, ih]
      rfl
    · rw [if_neg hn, if_neg hn, ih]

theorem updateToolCount_data (st : Storage) (n : String) (c : Nat) :
    (Registry.updateToolCount st n c).2.data = st.data := by
  simp only [Registry.updateToolCount]
  cases Registry.getSrv st n <;> simp [hset_data]

theorem updateToolCount_expires (st : Storage) (n : String) (c : Nat) :
    (Registry.updateToolCount st n c).2.expires = st.expires := by
  simp only [Registry.updateToolCount]
  cases Registry.getSrv st n <;> simp [hset_expires]

theorem getSrv_of_hashes_eq (st1 st2 : Storage) (n : String)
    (h : st1.hashes = st2.hashes) :
    Registry.getSrv st1 n = Registry.getSrv st2 n := by
  simp [Registry.getSrv, Storage.hget, h]

theorem mem_keys_upsert (x k : String) (v : α) (d : List (String × α))
    (h : x ∈ (upsert k v d).map Prod.fst) :
    x = k ∨ x ∈ d.map Prod.fst := by
  induction d with
  | nil => simpa [upsert] using h
  | cons hd rest ih =>
    obtain ⟨k0, v0⟩ := hd
    by_cases hk : k0 = k
    · subst hk
      have hup : upsert k0 v ((k0, v0) :: rest) = (k0, v) :: rest := by
        simp [upsert]
      rw [hup] at h
      simp at h
      rcases h with h | h
      · exact Or.inl h
      · exact Or.inr (by simp [h])
    · have hup : upsert k v ((k0, v0) :: rest) =
          (k0, v0) :: upsert k v rest := by
        simp [upsert, hk]
      rw [hup] at h
      simp at h
      rcases h with h | h
      · exact Or.inr (by simp [h])
      · rcases ih (by simpa using h) with h' | h'
        · exact Or.inl h'
        · exact Or.inr (by simp [h'])

theorem upsert_keys_nodup (k : String) (v : α) (d : List (String × α))
    (h : (d.map Prod.fst).Nodup) :
    ((upsert k v d).map Prod.fst).Nodup := by
  induction d with
  | nil => simp [upsert]
  | cons hd rest ih =>
    obtain ⟨k0, v0⟩ := hd
    simp only [List.map_cons, List.nodup_cons] at h
    obtain ⟨hk0, hrest⟩ := h
    by_cases hk : k0 = k
    · subst hk
      have hup : upsert k0 v ((k0, v0) :: rest) = (k0, v) :: rest := by
        simp [upsert]
      rw [hup]
      simp [hk0, hrest]
    · have hup : upsert k v ((k0, v0) :: rest) =
          (k0, v0) :: upsert k v rest := by
        simp [upsert, hk]
      rw [hup]
      simp only [List.map_cons, List.nodup_cons]
      refine ⟨?_, ih hrest⟩
      intro hmem
      rcases mem_keys_upsert k0 k v rest hmem with h' | h'
      · exact hk h'
      · exact hk0 h'

theorem metaFold_keys_nodup (s : String) (tools : List Tool)
    (d : List (String × GVal)) (h : (d.map Prod.fst).Nodup) :
    ((metaFold s tools d).map Prod.fst).Nodup := by
  induction tools generalizing d with
  | nil => exact h
  | cons t rest ih =>
    simp only [metaFold, List.foldl_cons]
    by_cases hn : t.name ≠ ""
    · rw [if_pos hn]
      exact ih _ (upsert_keys_nodup _ _ _ h)
    · rw [if_neg hn]
      exact ih _ h

/-! ## C3: tool count versus metadata count -/

/-- **C3.** The claim fails on the bootstrap write: `_register_server` runs
`store_tools(s, tools)` then `update_tool_count(s, len(tools))`, and
`len(tools)` counts tools with empty names, which `store_tools` silently
drops from metadata.  With `tools = [{name: ""}, {name: "a"}]` the stored
record's `tool_count` is 2 while exactly one `ToolMetadata` entry has
`server_name = s`. -/
theorem c3_tool_count_counterexample :
    ((Registry.getSrv
      (Registry.updateToolCount
        (Registry.storeTools 6
          (Registry.register 5 {} { name := "s", url := "u" }).2 "s"
          [{ name := "", description := "d0" },
           { name := "a", description := "d1" }])
        "s" 2).2 "s").map ServerInfo.tool_count = some 2) ∧
    ((Registry.getAllToolMetadata 7
      (Registry.updateToolCount
        (Registry.storeTools 6
          (Registry.register 5 {} { name := "s", url := "u" }).2 "s"
          [{ name := "", description := "d0" },
           { name := "a", description := "d1" }])
        "s" 2).2).1.filter (fun m => m.server_name = "s")).length = 1 ∧
    (2 : Nat) ≠ 1 :=
  ⟨by decide, by decide, by decide⟩

/-- **C3 (amended).** Immediately after the bootstrap discovery write —
`store_tools(s, tools)` followed by `update_tool_count(s, len(tools))` —
the stored record's `tool_count` equals `len(tools)`; when every tool name
is non-empty and the names are pairwise distinct (and no metadata for `s`
pre-exists), this also equals the number of `ToolMetadata` entries whose
`server_name` is `s`.  With empty or duplicate names the two counts can
differ, as the counterexample shows. -/
theorem c3_tool_count_amended (now now2 : Nat) (st : Storage) (s : String)
    (tools : List Tool) (info : ServerInfo)
    (hreg : Registry.getSrv st s = some info)
    (hexp : st.expires = [])
    (hnd : (st.data.map Prod.fst).Nodup)
    (hnames : ∀ t ∈ tools, t.name ≠ "")
    (hnodup : (tools.map Tool.name).Nodup)
    (hnometa : ∀ kv ∈ st.data, ∀ m : ToolMeta, kv.2 = GVal.meta m →
      m.server_name ≠ s) :
    (Registry.getSrv
      (Registry.updateToolCount (Registry.storeTools now st s tools) s
        tools.length).2 s).map ServerInfo.tool_count = some tools.length ∧
    ((Registry.getAllToolMetadata now2
      (Registry.updateToolCount (Registry.storeTools now st s tools) s
        tools.length).2).1.filter (fun m => m.server_name = s)).length =
      tools.length := by
  have hsrv1 : Registry.getSrv (Registry.storeTools now st s tools) s =
      some info := by
    rw [getSrv_of_hashes_eq _ st s (storeTools_hashes now st s tools), hreg]
  have hupd : (Registry.updateToolCount (Registry.storeTools now st s tools)
      s tools.length) =
      (true, (Registry.storeTools now st s tools).hset serversKey s
        (GVal.srv { info with tool_count := tools.length })) := by
    simp [Registry.updateToolCount, hsrv1]
  constructor
  · rw [hupd, getSrv_hset_servers]
    rfl
  · rw [hupd]
    have hdata : ((Registry.storeTools now st s tools).hset serversKey s
        (GVal.srv { info with tool_count := tools.length })).data =
        metaFold s tools (upsert (toolsKey s) (GVal.tools tools) st.data) := by
      rw [hset_data, storeTools_data now st s tools]
    have hexp2 : ((Registry.storeTools now st s tools).hset serversKey s
        (GVal.srv { info with tool_count := tools.length })).expires = [] := by
      rw [hset_expires, storeTools_expires_nil now st s tools hexp]
    have hnd2 : (((Registry.storeTools now st s tools).hset serversKey s
        (GVal.srv { info with tool_count := tools.length })).data.map
          Prod.fst).Nodup := by
      rw [hdata]
      exact metaFold_keys_nodup s tools _ (upsert_keys_nodup _ _ _ hnd)
    rw [getAllToolMetadata_eq now2 _ hexp2 hnd2]
    show metaCountFor s _ = tools.length
    rw [hdata]
    have hold : ∀ t ∈ tools, ∀ m',
        lookupKV (metaKey (s ++ "__" ++ t.name))
          (upsert (toolsKey s) (GVal.tools tools) st.data) =
          some (GVal.meta m') → m'.server_name ≠ s := by
      intro t _ m' hl
      rw [lookupKV_upsert_ne (metaKey_ne_toolsKey _ s)] at hl
      exact hnometa _ (lookupKV_mem _ _ _ hl) m' rfl
    rw [metaCount_metaFold s tools _ hnames hnodup hold]
    have hmm := metasOfData_upsert_nomatch (toolsKey s) (GVal.tools tools)
      st.data (by rw [globMatch_metaPat]; exact not_startsWithL_toolsKey s)
    have hbundle : metaCountFor s
        (upsert (toolsKey s) (GVal.tools tools) st.data) =
        metaCountFor s st.data := by
      simp only [metaCountFor, hmm]
    rw [hbundle, metaCountFor_zero s st.data hnometa]
    omega

/-- Witness for C3's amended theorem at a concrete registered server and a
two-tool list with distinct non-empty names. -/
theorem c3_tool_count_amended_witness :
    ∃ info : ServerInfo,
      Registry.getSrv (Registry.register 5 {} { name := "s", url := "u" }).2
        "s" = some info ∧
      ((Registry.getAllToolMetadata 7
        (Registry.updateToolCount
          (Registry.storeTools 6
            (Registry.register 5 {} { name := "s", url := "u" }).2 "s"
            [{ name := "a", description := "d0" },
             { name := "b", description := "d1" }])
          "s" 2).2).1.filter (fun m => m.server_name = "s")).length = 2 := by
  refine ⟨{ name := "s", url := "u", transport := "http",
            connection_mode := "stateless", auth_type := "none",
            status := "unknown", registered_at := 5 }, by decide, ?_⟩
  have h := (c3_tool_count_amended 6 7
    (Registry.register 5 {} { name := "s", url := "u" }).2 "s"
    [{ name := "a", description := "d0" }, { name := "b", description := "d1" }]
    { name := "s", url := "u", transport := "http",
      connection_mode := "stateless", auth_type := "none",
      status := "unknown", registered_at := 5 }
    (by decide) (by decide) (by decide) (by decide) (by decide)
    (by
      intro kv hkv
      rw [show (Registry.register 5 {}
        { name := "s", url := "u" }).2.data = [] from rfl] at hkv
      exact absurd hkv (List.not_mem_nil kv))).2
  simpa using h

/-! ## Python-dict collapse (C4)

Folding `upsert` over a pair list from the empty dict is exactly how both
the search index (`_tools`) and the metadata keys of the scalar store are
built; `collapseKV` names that fold so the two build paths of C4 can be
compared. -/

/-- Build a Python dict (association list) from a sequence of writes. -/
def collapseKV (ps : List (String × β)) : List (String × β) :=
  ps.foldl (fun acc kv => upsert kv.1 kv.2 acc) []

theorem upsert_map (φ : String → String) (f : β → γ)
    (hφ : ∀ a b, φ a = φ b → a = b) (k : String) (v : β)
    (l : List (String × β)) :
    upsert (φ k) (f v) (l.map (fun kv => (φ kv.1, f kv.2))) =
      (upsert k v l).map (fun kv => (φ kv.1, f kv.2)) := by
  induction l with
  | nil => simp [upsert]
  | cons hd rest ih =>
    obtain ⟨k0, v0⟩ := hd
    by_cases hk : k0 = k
    · subst hk
      simp [upsert, ih]
    · have hφne : ¬(φ k0 = φ k) := fun he => hk (hφ _ _ he)
      simp [upsert, hk, hφne, ih]

theorem collapseKV_map (φ : String → String) (f : β → γ)
    (hφ : ∀ a b, φ a = φ b → a = b) (ps : List (String × β)) :
    collapseKV (ps.map (fun kv => (φ kv.1, f kv.2))) =
      (collapseKV ps).map (fun kv => (φ kv.1, f kv.2)) := by
  suffices h : ∀ acc : List (String × β),
      (ps.map (fun kv => (φ kv.1, f kv.2))).foldl
        (fun acc kv => upsert kv.1 kv.2 acc)
        (acc.map (fun kv => (φ kv.1, f kv.2))) =
      (ps.foldl (fun acc kv => upsert kv.1 kv.2 acc) acc).map
        (fun kv => (φ kv.1, f kv.2)) by
    simpa [collapseKV] using h []
  induction ps with
  | nil => intro acc; rfl
  | cons p rest ih =>
    intro acc
    obtain ⟨k, v⟩ := p
    simp only [List.map_cons, List.foldl_cons]
    rw [upsert_map φ f hφ k v acc]
    exact ih _

theorem upsert_map_val (f : β → γ) (k : String) (v : β)
    (l : List (String × β)) :
    upsert k (f v) (l.map (fun kv => (kv.1, f kv.2))) =
      (upsert k v l).map (fun kv => (kv.1, f kv.2)) := by
  induction l with
  | nil => simp [upsert]
  | cons hd rest ih =>
    obtain ⟨k0, v0⟩ := hd
    by_cases hk : k0 = k
    · subst hk
      simp [upsert, ih]
    · simp [upsert, hk, ih]

theorem collapseKV_map_val (f : β → γ) (ps : List (String × β)) :
    collapseKV (ps.map (fun kv => (kv.1, f kv.2))) =
      (collapseKV ps).map (fun kv => (kv.1, f kv.2)) := by
  suffices h : ∀ acc : List (String × β),
      (ps.map (fun kv => (kv.1, f kv.2))).foldl
        (fun acc kv => upsert kv.1 kv.2 acc)
        (acc.map (fun kv => (kv.1, f kv.2))) =
      (ps.foldl (fun acc kv => upsert kv.1 kv.2 acc) acc).map
        (fun kv => (kv.1, f kv.2)) by
    simpa [collapseKV] using h []
  induction ps with
  | nil => intro acc; rfl
  | cons p rest ih =>
    intro acc
    obtain ⟨k, v⟩ := p
    simp only [List.map_cons, List.foldl_cons]
    rw [upsert_map_val f k v acc]
    exact ih _

theorem mem_upsert (x : String × β) (k : String) (v : β)
    (l : List (String × β)) (h : x ∈ upsert k v l) :
    x = (k, v) ∨ x ∈ l := by
  induction l with
  | nil => simpa [upsert] using h
  | cons hd rest ih =>
    obtain ⟨k0, v0⟩ := hd
    by_cases hk : k0 = k
    · subst hk
      have hup : upsert k0 v ((k0, v0) :: rest) = (k0, v) :: rest := by
        simp [upsert]
      rw [hup, List.mem_cons] at h
      rcases h with h | h
      · exact Or.inl h
      · exact Or.inr (List.mem_cons_of_mem _ h)
    · have hup : upsert k v ((k0, v0) :: rest) =
          (k0, v0) :: upsert k v rest := by
        simp [upsert, hk]
      rw [hup, List.mem_cons] at h
      rcases h with h | h
      · exact Or.inr (by simp [h])
      · rcases ih h with h' | h'
        · exact Or.inl h'
        · exact Or.inr (List.mem_cons_of_mem _ h')

theorem mem_collapseKV (ps : List (String × β)) (x : String × β)
    (h : x ∈ collapseKV ps) : x ∈ ps := by
  suffices hs : ∀ (qs acc : List (String × β)),
      x ∈ qs.foldl (fun acc kv => upsert kv.1 kv.2 acc) acc →
      x ∈ qs ∨ x ∈ acc by
    rcases hs ps [] h with h' | h'
    · exact h'
    · simp at h'
  intro qs
  induction qs with
  | nil => intro acc hx; exact Or.inr hx
  | cons p rest ih =>
    intro acc hx
    rw [List.foldl_cons] at hx
    rcases ih _ hx with h' | h'
    · exact Or.inl (List.mem_cons_of_mem _ h')
    · rcases mem_upsert x p.1 p.2 acc h' with h'' | h''
      · exact Or.inl (by simp [h''])
      · exact Or.inr h''

theorem collapseKV_keys_nodup (ps : List (String × β)) :
    ((collapseKV ps).map Prod.fst).Nodup := by
  suffices hs : ∀ (qs acc : List (String × β)), (acc.map Prod.fst).Nodup →
      ((qs.foldl (fun acc kv => upsert kv.1 kv.2 acc) acc).map
        Prod.fst).Nodup by
    exact hs ps [] (by simp)
  intro qs
  induction qs with
  | nil => intro acc h; exact h
  | cons p rest ih =>
    intro acc h
    rw [List.foldl_cons]
    exact ih _ (upsert_keys_nodup _ _ _ h)

theorem upsert_fresh (k : String) (v : β) (l : List (String × β))
    (h : k ∉ l.map Prod.fst) : upsert k v l = l ++ [(k, v)] := by
  induction l with
  | nil => simp [upsert]
  | cons hd rest ih =>
    obtain ⟨k0, v0⟩ := hd
    simp only [List.map_cons, List.mem_cons] at h
    push_neg at h
    obtain ⟨hk0, hrest⟩ := h
    have hne : ¬(k0 = k) := fun e => hk0 e.symm
    simp [upsert, hne, ih hrest]

theorem collapseKV_of_nodup (l : List (String × β))
    (h : (l.map Prod.fst).Nodup) : collapseKV l = l := by
  suffices hs : ∀ (q : List (String × β)), (q.map Prod.fst).Nodup →
      ∀ acc, (∀ k ∈ q.map Prod.fst, k ∉ acc.map Prod.fst) →
      q.foldl (fun acc kv => upsert kv.1 kv.2 acc) acc = acc ++ q by
    simpa using hs l h [] (by simp)
  intro q
  induction q with
  | nil => intro _ acc _; simp
  | cons p rest ih =>
    intro hnd acc hacc
    obtain ⟨k, v⟩ := p
    simp only [List.map_cons, List.nodup_cons] at hnd
    obtain ⟨hknotin, hrest⟩ := hnd
    rw [List.foldl_cons]
    show (rest.foldl (fun acc kv => upsert kv.1 kv.2 acc)
      (upsert k v acc)) = acc ++ (k, v) :: rest
    rw [upsert_fresh k v acc (hacc k (by simp))]
    rw [ih hrest (acc ++ [(k, v)]) ?_]
    · simp
    · intro k' hk' hmem
      simp only [List.map_append, List.mem_append] at hmem
      rcases hmem with hmem | hmem
      · exact hacc k' (by simp [hk']) hmem
      · simp at hmem
        exact hknotin (hmem ▸ hk')

/-! ## C4: live indexing versus metadata rebuild -/

/-- When every tool name is non-empty, `store_tools`'s metadata writes are
the pure upsert fold. -/
theorem metaFold_eq_collapse (s : String) (T : List Tool)
    (hnames : ∀ t ∈ T, t.name ≠ "") :
    metaFold s T [] =
      collapseKV (T.map (fun t => (metaKey (s ++ "__" ++ t.name),
        GVal.meta (mkToolMeta s t.name t)))) := by
  simp only [metaFold, collapseKV, List.foldl_map]
  suffices h : ∀ (T' : List Tool), (∀ t ∈ T', t.name ≠ "") →
      ∀ d : List (String × GVal),
      T'.foldl (fun d t => if t.name ≠ "" then
        upsert (metaKey (s ++ "__" ++ t.name))
          (GVal.meta (mkToolMeta s t.name t)) d else d) d =
      T'.foldl (fun acc t => upsert (metaKey (s ++ "__" ++ t.name))
        (GVal.meta (mkToolMeta s t.name t)) acc) d by
    exact h T hnames []
  intro T'
  induction T' with
  | nil => intro _ d; rfl
  | cons t rest ih =>
    intro hn d
    rw [List.foldl_cons, List.foldl_cons,
      if_pos (hn t (List.mem_cons_self t rest))]
    exact ih (fun t' ht' => hn t' (List.mem_cons_of_mem t ht')) _

/-- A leading entry whose key no metadata upsert targets is untouched. -/
theorem metaFold_cons_of_ne (s : String) (T : List Tool)
    (b : String × GVal) (d : List (String × GVal))
    (hb : ∀ t ∈ T, metaKey (s ++ "__" ++ t.name) ≠ b.1) :
    metaFold s T (b :: d) = b :: metaFold s T d := by
  suffices h : ∀ (T' : List Tool),
      (∀ t ∈ T', metaKey (s ++ "__" ++ t.name) ≠ b.1) →
      ∀ d : List (String × GVal),
      metaFold s T' (b :: d) = b :: metaFold s T' d by
    exact h T hb d
  intro T'
  induction T' with
  | nil => intro _ d; rfl
  | cons t rest ih =>
    intro hb' d
    simp only [metaFold, List.foldl_cons]
    by_cases hn : t.name ≠ ""
    · rw [if_pos hn, if_pos hn]
      have hk : ¬(b.1 = metaKey (s ++ "__" ++ t.name)) :=
        fun e => hb' t (List.mem_cons_self t rest) e.symm
      have hup : upsert (metaKey (s ++ "__" ++ t.name))
          (GVal.meta (mkToolMeta s t.name t)) (b :: d) =
          b :: upsert (metaKey (s ++ "__" ++ t.name))
            (GVal.meta (mkToolMeta s t.name t)) d := by
        obtain ⟨bk, bv⟩ := b
        simp only [upsert]
        rw [if_neg hk]
      rw [hup]
      exact ih (fun t' ht' => hb' t' (List.mem_cons_of_mem t ht')) _
    · rw [if_neg hn, if_neg hn]
      exact ih (fun t' ht' => hb' t' (List.mem_cons_of_mem t ht')) d

theorem metaKey_inj (a b : String) (h : metaKey a = metaKey b) : a = b :=
  string_append_left_cancel "gateway:tool_meta:" a b h

theorem metasOfData_map_meta (f : Tool → ToolMeta)
    (q : List (String × Tool)) :
    metasOfData (q.map (fun kv => (metaKey kv.1, GVal.meta (f kv.2)))) =
      q.map (fun kv => f kv.2) := by
  induction q with
  | nil => rfl
  | cons kv rest ih =>
    simp only [List.map_cons]
    rw [metasOfData_cons]
    rw [globMatch_metaPat, startsWithL_metaKey]
    simp [toMetaOpt, ih]

theorem ns_ne_empty (s a : String) : s ++ "__" ++ a ≠ "" := by
  intro h
  have hd := congrArg String.data h
  have : (s.data ++ ['_', '_']) ++ a.data = [] := hd
  simp at this

/-- With non-empty namespaced names, `index_all_metadata` is the pure
upsert fold over the rebuilt entries. -/
theorem indexAllMetadata_eq_collapse (ms : List ToolMeta)
    (hns : ∀ m ∈ ms, m.namespaced_name ≠ "") :
    Search.indexAllMetadata ms [] =
      collapseKV (ms.map (fun m => (m.namespaced_name,
        ({ server_name := m.server_name, tool_name := m.tool_name,
           namespaced_name := m.namespaced_name,
           description := m.description, input_schema := m.input_schema,
           searchable_text := Search.buildSearchableText false m.tool_name
             m.description m.input_schema } : IndexedTool)))) := by
  suffices h : ∀ acc : SearchState,
      Search.indexAllMetadata ms acc =
      ms.foldl (fun i m => upsert m.namespaced_name
        ({ server_name := m.server_name, tool_name := m.tool_name,
           namespaced_name := m.namespaced_name,
           description := m.description, input_schema := m.input_schema,
           searchable_text := Search.buildSearchableText false m.tool_name
             m.description m.input_schema } : IndexedTool) i) acc by
    rw [h []]
    simp [collapseKV, List.foldl_map]
  induction ms with
  | nil => intro acc; rfl
  | cons m rest ih =>
    intro acc
    simp only [Search.indexAllMetadata, List.foldl_cons] at ih ⊢
    rw [show Search.indexToolMetadata m acc =
      upsert m.namespaced_name _ acc from ?_]
    · exact ih (fun m' hm' => hns m' (List.mem_cons_of_mem m hm')) _
    · simp [Search.indexToolMetadata, hns m (List.mem_cons_self m rest)]

/-- Rebuild an index entry's `searchable_text` without the live-indexing
weighting (name and description doubled); everything else is unchanged. -/
def reweightUnweighted (e : IndexedTool) : IndexedTool :=
  { server_name := e.server_name, tool_name := e.tool_name,
    namespaced_name := e.namespaced_name, description := e.description,
    input_schema := e.input_schema,
    searchable_text :=
      Search.buildSearchableText false e.tool_name e.description
        e.input_schema,
    defer_loading := e.defer_loading }

/-- The schema of the first BM25-flip tool: one property whose description
repeats the keyword. -/
def c4PropA : PropSchema := { description := some "alpha alpha alpha" }

/-- First BM25-flip tool: keyword in the description once, twice more in
the schema. -/
def c4ToolA : Tool :=
  { name := "nnnn", description := "alpha",
    input_schema := { properties := [("p", c4PropA)] } }

/-- Second BM25-flip tool: keyword three times in the description. -/
def c4ToolB : Tool := { name := "mmmm", description := "alpha alpha alpha" }

/-- The empty-name tool distinguishing the two index paths under regex. -/
def c4ToolE : Tool := { name := "", description := "zzz" }

/-- **C4.** The claim fails: the two index-construction paths do not give
the same search results.  With the single tool `{name: "", description:
"zzz"}`, live indexing indexes it (under `"s__"`) while the metadata
rebuild does not, so a regex search for `"zzz"` returns one result against
the live index and none against the rebuilt one.  And even with non-empty
names, live indexing doubles name and description in `searchable_text`,
shifting BM25 scores: the two paths return the tools `nnnn`, `mmmm` in
opposite orders. -/
theorem c4_search_equivalence_counterexample :
    (Search.searchRegexM (Search.literalMatcher "zzz") 5
      (Search.indexTools "s" [c4ToolE] []) ≠
     Search.searchRegexM (Search.literalMatcher "zzz") 5
      (Search.indexAllMetadata
        (Registry.getAllToolMetadata 7
          (Registry.storeTools 6 {} "s" [c4ToolE])).1 [])) ∧
    ((Search.searchBm25 "alpha" 5
        (Search.indexTools "s" [c4ToolA, c4ToolB] [])).map
        ToolReference.tool_name = ["mmmm", "nnnn"] ∧
     (Search.searchBm25 "alpha" 5
        (Search.indexAllMetadata
          (Registry.getAllToolMetadata 7
            (Registry.storeTools 6 {} "s" [c4ToolA, c4ToolB])).1 [])).map
        ToolReference.tool_name = ["nnnn", "mmmm"]) :=
  ⟨by decide, by decide, by decide⟩

/-- **C4 (amended).** For every tool list whose names are all non-empty,
`store_tools(s, T)` + `index_tools(s, T)` and `index_all_metadata` over
`get_all_tool_metadata()` after the same `store_tools` produce indexes with
the same keys in the same order, agreeing on every field except
`searchable_text`: the rebuilt index is exactly the live index with each
entry's `searchable_text` recomputed without weighting.  (Search results
therefore need not coincide — the counterexample exhibits a regex query
distinguishing them when a name is empty and a BM25 order flip even with
non-empty names.) -/
theorem c4_index_rebuild_amended (now now2 : Nat) (s : String)
    (T : List Tool) (hnames : ∀ t ∈ T, t.name ≠ "") :
    Search.indexAllMetadata
      (Registry.getAllToolMetadata now2
        (Registry.storeTools now {} s T)).1 [] =
    (Search.indexTools s T []).map
      (fun kv => (kv.1, reweightUnweighted kv.2)) := by
  -- Step 1: the stored metadata list.
  have hdata : (Registry.storeTools now {} s T).data =
      (toolsKey s, GVal.tools T) :: metaFold s T [] := by
    rw [storeTools_data]
    show metaFold s T (upsert (toolsKey s) (GVal.tools T) []) = _
    rw [show upsert (toolsKey s) (GVal.tools T) ([] : List (String × GVal)) =
      [(toolsKey s, GVal.tools T)] from rfl]
    exact metaFold_cons_of_ne s T _ []
      (fun t _ => metaKey_ne_toolsKey (s ++ "__" ++ t.name) s)
  have hmf := metaFold_eq_collapse s T hnames
  have hexp : (Registry.storeTools now {} s T).expires = [] :=
    storeTools_expires_nil now {} s T rfl
  have hnd : ((Registry.storeTools now {} s T).data.map Prod.fst).Nodup := by
    rw [hdata]
    simp only [List.map_cons, List.nodup_cons]
    refine ⟨?_, ?_⟩
    · intro hmem
      rw [hmf] at hmem
      rw [mem_keys_iff_lookupKV] at hmem
      cases hlk : lookupKV (toolsKey s) (collapseKV (T.map
          (fun t => (metaKey (s ++ "__" ++ t.name),
            GVal.meta (mkToolMeta s t.name t))))) with
      | none => rw [hlk] at hmem; simp at hmem
      | some v =>
        have hin := mem_collapseKV _ _ (lookupKV_mem _ _ _ hlk)
        simp only [List.mem_map] at hin
        obtain ⟨t, _, ht⟩ := hin
        exact metaKey_ne_toolsKey (s ++ "__" ++ t.name) s
          (congrArg Prod.fst ht)
    · rw [hmf]
      exact collapseKV_keys_nodup _
  -- Step 2: the metadata list is the collapsed tool list.
  have hmetas : (Registry.getAllToolMetadata now2
      (Registry.storeTools now {} s T)).1 =
      (collapseKV (T.map (fun t => (s ++ "__" ++ t.name, t)))).map
        (fun kv => mkToolMeta s kv.2.name kv.2) := by
    rw [getAllToolMetadata_eq now2 _ hexp hnd]
    show metasOfData (Registry.storeTools now {} s T).data = _
    rw [hdata, metasOfData_cons]
    rw [globMatch_metaPat, not_startsWithL_toolsKey]
    simp only [List.nil_append, Bool.false_eq_true, if_false]
    rw [hmf]
    have hmap : T.map (fun t => (metaKey (s ++ "__" ++ t.name),
        GVal.meta (mkToolMeta s t.name t))) =
        (T.map (fun t => (s ++ "__" ++ t.name, t))).map
          (fun kv => (metaKey kv.1, GVal.meta (mkToolMeta s kv.2.name kv.2))) := by
      rw [List.map_map]
      rfl
    rw [hmap,
      collapseKV_map metaKey (fun v => GVal.meta (mkToolMeta s v.name v))
        metaKey_inj]
    exact metasOfData_map_meta (fun v => mkToolMeta s v.name v) _
  -- Step 3: both sides as maps over the collapsed tool list.
  rw [hmetas]
  have hns : ∀ m ∈ (collapseKV (T.map (fun t => (s ++ "__" ++ t.name, t)))).map
      (fun kv => mkToolMeta s kv.2.name kv.2), m.namespaced_name ≠ "" := by
    intro m hm
    simp only [List.mem_map] at hm
    obtain ⟨kv, _, hkv⟩ := hm
    rw [← hkv]
    exact ns_ne_empty s kv.2.name
  rw [indexAllMetadata_eq_collapse _ hns]
  have hlive : Search.indexTools s T [] =
      (collapseKV (T.map (fun t => (s ++ "__" ++ t.name, t)))).map
        (fun kv => (kv.1,
          ({ server_name := s, tool_name := kv.2.name,
             namespaced_name := s ++ "__" ++ kv.2.name,
             description := kv.2.description,
             input_schema := kv.2.input_schema,
             searchable_text := Search.buildSearchableText true kv.2.name
               kv.2.description kv.2.input_schema } : IndexedTool))) := by
    have h1 : Search.indexTools s T [] =
        collapseKV ((T.map (fun t => (s ++ "__" ++ t.name, t))).map
          (fun kv => (kv.1,
            ({ server_name := s, tool_name := kv.2.name,
               namespaced_name := s ++ "__" ++ kv.2.name,
               description := kv.2.description,
               input_schema := kv.2.input_schema,
               searchable_text := Search.buildSearchableText true kv.2.name
                 kv.2.description kv.2.input_schema } : IndexedTool)))) := by
      simp only [Search.indexTools, Search.indexTool, collapseKV,
        List.foldl_map, List.map_map]
      rfl
    have h2 := collapseKV_map_val
      (fun v : Tool =>
        ({ server_name := s, tool_name := v.name,
           namespaced_name := s ++ "__" ++ v.name,
           description := v.description, input_schema := v.input_schema,
           searchable_text := Search.buildSearchableText true v.name
             v.description v.input_schema } : IndexedTool))
      (T.map (fun t => (s ++ "__" ++ t.name, t)))
    exact h1.trans h2
  -- Step 4: normalise both sides to maps over the collapsed tool list.
  have hkeys : ∀ kv ∈ collapseKV (T.map (fun t => (s ++ "__" ++ t.name, t))),
      kv.1 = s ++ "__" ++ kv.2.name := by
    intro kv hkv
    have := mem_collapseKV _ _ hkv
    simp only [List.mem_map] at this
    obtain ⟨t, _, ht⟩ := this
    rw [← ht]
  rw [List.map_map]
  have hstep1 : (collapseKV (T.map (fun t => (s ++ "__" ++ t.name, t)))).map
      ((fun m : ToolMeta => (m.namespaced_name,
        ({ server_name := m.server_name, tool_name := m.tool_name,
           namespaced_name := m.namespaced_name,
           description := m.description, input_schema := m.input_schema,
           searchable_text := Search.buildSearchableText false m.tool_name
             m.description m.input_schema } : IndexedTool))) ∘
        (fun kv : String × Tool => mkToolMeta s kv.2.name kv.2)) =
      (collapseKV (T.map (fun t => (s ++ "__" ++ t.name, t)))).map
        (fun kv => (kv.1,
          ({ server_name := s, tool_name := kv.2.name,
             namespaced_name := s ++ "__" ++ kv.2.name,
             description := kv.2.description,
             input_schema := kv.2.input_schema,
             searchable_text := Search.buildSearchableText false kv.2.name
               kv.2.description kv.2.input_schema } : IndexedTool))) := by
    apply List.map_congr_left
    intro kv hkv
    show (s ++ "__" ++ kv.2.name,
      ({ server_name := s, tool_name := kv.2.name,
         namespaced_name := s ++ "__" ++ kv.2.name,
         description := kv.2.description,
         input_schema := kv.2.input_schema,
         searchable_text := Search.buildSearchableText false kv.2.name
           kv.2.description kv.2.input_schema } : IndexedTool)) = _
    rw [hkeys kv hkv]
  rw [hstep1]
  have h3 := collapseKV_map_val
    (fun v : Tool =>
      ({ server_name := s, tool_name := v.name,
         namespaced_name := s ++ "__" ++ v.name,
         description := v.description, input_schema := v.input_schema,
         searchable_text := Search.buildSearchableText false v.name
           v.description v.input_schema } : IndexedTool))
    (collapseKV (T.map (fun t => (s ++ "__" ++ t.name, t))))
  rw [h3, collapseKV_of_nodup _ (collapseKV_keys_nodup _)]
  rw [hlive, List.map_map]
  rfl

/-- Witness for C4's amended theorem at a concrete two-tool list. -/
theorem c4_index_rebuild_amended_witness :
    Search.indexAllMetadata
      (Registry.getAllToolMetadata 7
        (Registry.storeTools 6 {} "s"
          [{ name := "a", description := "da" },
           { name := "b", description := "db" }])).1 [] =
    (Search.indexTools "s"
      [{ name := "a", description := "da" },
       { name := "b", description := "db" }] []).map
      (fun kv => (kv.1, reweightUnweighted kv.2)) :=
  c4_index_rebuild_amended 6 7 "s"
    [{ name := "a", description := "da" }, { name := "b", description := "db" }]
    (by decide)

/-! ## C8: the BM25 scorer and the shape of `search_bm25` results

`keywordContribution` and `bm25SpecScore` restate claim C8's wording as a
per-keyword *sum* (in tenths); the source's single-pass accumulator
`scoreStep` / `calculateBm25Score` is proved equal to it.
`calculateBm25ScoreF64` / `searchBm25F64` refine the scorer to IEEE-double
semantics: the final `*= 1.8` / `*= 1.4` and the `* 0.7` threshold round
to 53 significant bits (everything before them is exact in doubles), with
values scaled by `2^64` so that double order is natural-number order.
The result list is characterised as the positively-scored tools in index
order, stable-sorted by descending (rounded) score, truncated to
`limit`. -/

namespace Search

/-- Spec-side per-keyword contribution, following claim C8's wording: +8
if the keyword occurs in the tool name plus +4 if the name starts with it;
+15 if it occurs in the description plus +5 if within the first 100
characters; +0.5 per occurrence in `searchable_text`; the fixed
semantic-equivalents boosts (+5 per equivalent in the name, +8 per
equivalent in the description); and the partial-word boosts (+2 for name
words, +1 for description words).  All in tenths. -/
def keywordContribution (name desc stext : String) (k : String) : Nat :=
  (if containsS name k then 80 + (if startsWithS name k then 40 else 0)
   else 0) +
  (if containsS desc k then
     150 + (if containsSub (desc.data.take 100) k.data then 50 else 0)
   else 0) +
  countS stext k * 5 +
  (match lookupKV k semanticBoosts with
   | some equivs =>
     (equivs.map (fun e => (if containsS name e then 50 else 0) +
       (if containsS desc e then 80 else 0))).sum
   | none => 0) +
  ((splitWs (replaceChar '-' ' ' (replaceChar '_' ' ' name.data))).map
    (fun w =>
      if (stripChars [' ', '\t', '\n', '\r'] w).length > 3 ∧
          containsSub (stripChars [' ', '\t', '\n', '\r'] w) k.data ∧
          stripChars [' ', '\t', '\n', '\r'] w ≠ k.data
      then 20 else 0)).sum +
  ((splitWs desc.data).map
    (fun w =>
      if (stripChars ['.', ',', ';', ':'] w).length > 3 ∧
          containsSub (stripChars ['.', ',', ';', ':'] w) k.data ∧
          stripChars ['.', ',', ';', ':'] w ≠ k.data
      then 10 else 0)).sum

/-- Spec-side total score of claim C8: the sum of the per-keyword
contributions over the extracted keywords, then only the first matching
post-scaling rule (×2.0, ×1.8, ×1.4). -/
def bm25SpecScore (query : String) (t : IndexedTool) : Nat :=
  let kws := extractKeywords query
  if kws = [] then 0
  else
    let name := lowerS t.tool_name
    let desc := lowerS t.description
    let stext := lowerS t.searchable_text
    let base := (kws.map (keywordContribution name desc stext)).sum
    let nm := (kws.filter (fun k => containsS name k)).length
    let dm := (kws.filter (fun k => containsS desc k)).length
    if nm > 0 ∧ dm > 0 then base * 2
    else if dm ≥ kws.length then base * 9 / 5
    else if 10 * (nm + dm) ≥ 7 * kws.length then base * 7 / 5
    else base

/-- Length in bits of `n`, fuel-driven; fuel 128 covers every value below
`2^128`, far beyond any score numerator a representable input can reach. -/
def bitLenF : Nat → Nat → Nat
  | 0, _ => 0
  | f + 1, n => if n = 0 then 0 else bitLenF f (n / 2) + 1

/-- Round the non-negative dyadic `N / 2^k` to 53 significant bits, round
half to even — the IEEE double rounding of a positive product in range —
returned scaled by `2^64` (integral whenever `k ≤ 64`, as in every use
below). -/
def fround64 (N k : Nat) : Nat :=
  let b := bitLenF 128 N
  if b ≤ 53 then N * 2 ^ (64 - k)
  else
    let sh := b - 53
    let q := N / 2 ^ sh
    let r := N % 2 ^ sh
    let half := 2 ^ (sh - 1)
    let q2 := if half < r ∨ (r = half ∧ q % 2 = 1) then q + 1 else q
    q2 * 2 ^ (64 + sh - k)

/-- The exact value of the double literal `1.8`: `d18mant / 2^52`. -/
def d18mant : Nat := 8106479329266893

/-- The exact value of the double literal `1.4`: `d14mant / 2^51`. -/
def d14mant : Nat := 3152519739159347

/-- The exact value of the double literal `0.7`: `d07mant / 2^52`. -/
def d07mant : Nat := 3152519739159347

/-- `_calculate_bm25_score` under IEEE-double semantics, as the exact
value of the returned double scaled by `2^64`.  Every boost is a multiple
of 0.5 and doubles add such values exactly at these magnitudes, so the
in-loop accumulation is the exact `scoreStep` fold; the score in halves
is the tenths value divided by 5 (exact by
`bm25_score_multiple_of_five`).  `score *= 2.0` is exact; `*= 1.8`
(`(h/2) * (d18mant/2^52) = h*d18mant / 2^53`), `*= 1.4`
(`h*d14mant / 2^52`) and the threshold `len(keywords) * 0.7`
(`len*d07mant / 2^52`) each round once; Python compares the int
`name_matches + desc_matches` with that rounded double exactly. -/
def calculateBm25ScoreF64 (query : String) (t : IndexedTool) : Nat :=
  let kws := extractKeywords query
  if kws = [] then 0
  else
    let name := lowerS t.tool_name
    let desc := lowerS t.description
    let stext := lowerS t.searchable_text
    let r := kws.foldl (scoreStep name desc stext) (0, 0, 0)
    let h := r.1 / 5
    let nm := r.2.1
    let dm := r.2.2
    if nm > 0 ∧ dm > 0 then h * 2 ^ 64
    else if dm ≥ kws.length then fround64 (h * d18mant) 53
    else if 2 ^ 64 * (nm + dm) ≥ fround64 (kws.length * d07mant) 52 then
      fround64 (h * d14mant) 52
    else h * 2 ^ 63

/-- Spec-side float score: claim C8's per-keyword sum with the final
scaling rounded to double precision, scaled by `2^64`. -/
def bm25SpecScoreF64 (query : String) (t : IndexedTool) : Nat :=
  let kws := extractKeywords query
  if kws = [] then 0
  else
    let name := lowerS t.tool_name
    let desc := lowerS t.description
    let stext := lowerS t.searchable_text
    let h := (kws.map (keywordContribution name desc stext)).sum / 5
    let nm := (kws.filter (fun k => containsS name k)).length
    let dm := (kws.filter (fun k => containsS desc k)).length
    if nm > 0 ∧ dm > 0 then h * 2 ^ 64
    else if dm ≥ kws.length then fround64 (h * d18mant) 53
    else if 2 ^ 64 * (nm + dm) ≥ fround64 (kws.length * d07mant) 52 then
      fround64 (h * d14mant) 52
    else h * 2 ^ 63

/-- `ToolSearchService.search_bm25` under IEEE-double semantics: order and
equality of the doubles coincide with order and equality of the
`2^64`-scaled scores, and `score > 0` iff the scaled score is positive. -/
def searchBm25F64 (query : String) (limit : Nat) (idx : SearchState) :
    List ToolReference :=
  let scored :=
    (idx.map Prod.snd).filterMap
      (fun t =>
        let s := calculateBm25ScoreF64 query t
        if s > 0 then some (s, t) else none)
  ((sortDescQ scored).take limit).map (fun p => toRef p.2)

end Search

theorem foldl_add_map {α : Type} (f : α → Nat) :
    ∀ (l : List α) (a : Nat),
      l.foldl (fun sc x => sc + f x) a = a + (l.map f).sum := by
  intro l
  induction l with
  | nil => intro a; simp
  | cons x xs ih =>
    intro a
    rw [List.foldl_cons, List.map_cons, List.sum_cons, ih]
    omega

theorem scoreStep_eq (name desc stext : String) (acc : Nat × Nat × Nat)
    (k : String) :
    Search.scoreStep name desc stext acc k =
      (acc.1 + Search.keywordContribution name desc stext k,
       acc.2.1 + (if containsS name k then 1 else 0),
       acc.2.2 + (if containsS desc k then 1 else 0)) := by
  obtain ⟨sc0, nm0, dm0⟩ := acc
  unfold Search.scoreStep Search.keywordContribution
  cases hl : lookupKV k Search.semanticBoosts with
  | none =>
    by_cases h1 : containsS name k <;> by_cases h2 : containsS desc k <;>
      by_cases h3 : startsWithS name k <;>
        by_cases h4 : containsSub (desc.data.take 100) k.data <;>
          simp [hl, h1, h2, h3, h4] <;>
          rw [foldl_add_map, foldl_add_map] <;>
          (first
            | trivial
            | omega
            | ring)
  | some equivs =>
    by_cases h1 : containsS name k <;> by_cases h2 : containsS desc k <;>
      by_cases h3 : startsWithS name k <;>
        by_cases h4 : containsSub (desc.data.take 100) k.data <;>
          simp [hl, h1, h2, h3, h4] <;>
          rw [foldl_add_map, foldl_add_map, foldl_add_map] <;>
          (try simp [List.sum_map_add]) <;>
          (first
            | trivial
            | omega
            | ring)

theorem foldl_scoreStep (name desc stext : String) :
    ∀ (kws : List String) (a : Nat × Nat × Nat),
      kws.foldl (Search.scoreStep name desc stext) a =
        (a.1 + (kws.map (Search.keywordContribution name desc stext)).sum,
         a.2.1 + (kws.filter (fun k => containsS name k)).length,
         a.2.2 + (kws.filter (fun k => containsS desc k)).length) := by
  intro kws
  induction kws with
  | nil => intro a; simp
  | cons k ks ih =>
    intro a
    rw [List.foldl_cons, scoreStep_eq, ih]
    simp only [List.map_cons, List.sum_cons, List.filter_cons]
    by_cases h1 : containsS name k <;> by_cases h2 : containsS desc k <;>
      simp [h1, h2] <;> omega

theorem calculateBm25Score_eq_spec (q : String) (t : IndexedTool) :
    Search.calculateBm25Score q t = Search.bm25SpecScore q t := by
  unfold Search.calculateBm25Score Search.bm25SpecScore
  by_cases hk : Search.extractKeywords q = []
  · simp [hk]
  · simp only [hk, ite_false, if_neg, not_false_iff]
    rw [foldl_scoreStep]
    simp

theorem calculateBm25ScoreF64_eq_spec (q : String) (t : IndexedTool) :
    Search.calculateBm25ScoreF64 q t = Search.bm25SpecScoreF64 q t := by
  unfold Search.calculateBm25ScoreF64 Search.bm25SpecScoreF64
  by_cases hk : Search.extractKeywords q = []
  · simp [hk]
  · simp only [hk, ite_false, if_neg, not_false_iff]
    rw [foldl_scoreStep]
    simp

/-- Every per-keyword contribution is a multiple of five tenths: each
boost is 0.5, 1, 2, 4, 5, 8 or 15 points. -/
theorem keywordContribution_dvd_five (name desc stext k : String) :
    5 ∣ Search.keywordContribution name desc stext k := by
  unfold Search.keywordContribution
  refine Nat.dvd_add (Nat.dvd_add (Nat.dvd_add (Nat.dvd_add
    (Nat.dvd_add ?_ ?_) ?_) ?_) ?_) ?_
  · by_cases h1 : containsS name k <;> by_cases h3 : startsWithS name k <;>
      simp [h1, h3] <;> decide
  · by_cases h2 : containsS desc k <;>
      by_cases h4 : containsSub (desc.data.take 100) k.data <;>
      simp [h2, h4] <;> decide
  · exact ⟨countS stext k, by ring⟩
  · cases hl : lookupKV k Search.semanticBoosts with
    | none => simp
    | some equivs =>
      refine List.dvd_sum ?_
      intro x hx
      rw [List.mem_map] at hx
      obtain ⟨e, he, rfl⟩ := hx
      by_cases ha : containsS name e <;> by_cases hb : containsS desc e <;>
        simp [ha, hb] <;> decide
  · refine List.dvd_sum ?_
    intro x hx
    rw [List.mem_map] at hx
    obtain ⟨w, hw, rfl⟩ := hx
    by_cases h : (stripChars [' ', '\t', '\n', '\r'] w).length > 3 ∧
        containsSub (stripChars [' ', '\t', '\n', '\r'] w) k.data ∧
        stripChars [' ', '\t', '\n', '\r'] w ≠ k.data <;>
      simp [h] <;> decide
  · refine List.dvd_sum ?_
    intro x hx
    rw [List.mem_map] at hx
    obtain ⟨w, hw, rfl⟩ := hx
    by_cases h : (stripChars ['.', ',', ';', ':'] w).length > 3 ∧
        containsSub (stripChars ['.', ',', ';', ':'] w) k.data ∧
        stripChars ['.', ',', ';', ':'] w ≠ k.data <;>
      simp [h] <;> decide

/-- The pre-scaling BM25 score is a multiple of five tenths, so the
post-scalings `* 9 / 5` and `* 7 / 5` are exact (by `foldl_scoreStep`,
the accumulated score is `0 +` this sum). -/
theorem bm25_score_multiple_of_five (name desc stext : String)
    (kws : List String) :
    5 ∣ (kws.map (Search.keywordContribution name desc stext)).sum := by
  refine List.dvd_sum ?_
  intro x hx
  rw [List.mem_map] at hx
  obtain ⟨k, hk, rfl⟩ := hx
  exact keywordContribution_dvd_five name desc stext k

theorem mem_insertDescQ (x : Nat × IndexedTool) :
    ∀ (l : List (Nat × IndexedTool)) (z : Nat × IndexedTool),
      z ∈ Search.insertDescQ x l → z = x ∨ z ∈ l := by
  intro l
  induction l with
  | nil =>
    intro z hz
    simp only [Search.insertDescQ, List.mem_singleton] at hz
    exact Or.inl hz
  | cons y ys ih =>
    intro z hz
    simp only [Search.insertDescQ] at hz
    by_cases h : y.1 > x.1
    · rw [if_pos h, List.mem_cons] at hz
      rcases hz with h1 | h2
      · exact Or.inr (h1 ▸ List.mem_cons_self y ys)
      · rcases ih z h2 with h3 | h4
        · exact Or.inl h3
        · exact Or.inr (List.mem_cons_of_mem y h4)
    · rw [if_neg h, List.mem_cons] at hz
      rcases hz with h1 | h2
      · exact Or.inl h1
      · exact Or.inr h2

theorem sorted_insertDescQ (x : Nat × IndexedTool) :
    ∀ (l : List (Nat × IndexedTool)),
      l.Pairwise (fun a b => b.1 ≤ a.1) →
      (Search.insertDescQ x l).Pairwise (fun a b => b.1 ≤ a.1) := by
  intro l
  induction l with
  | nil =>
    intro _
    simp [Search.insertDescQ]
  | cons y ys ih =>
    intro hs
    rw [List.pairwise_cons] at hs
    obtain ⟨hy, hys⟩ := hs
    simp only [Search.insertDescQ]
    by_cases h : y.1 > x.1
    · rw [if_pos h, List.pairwise_cons]
      refine ⟨?_, ih hys⟩
      intro z hz
      rcases mem_insertDescQ x ys z hz with h1 | h2
      · rw [h1]; omega
      · exact hy z h2
    · rw [if_neg h, List.pairwise_cons]
      refine ⟨?_, List.Pairwise.cons hy hys⟩
      intro z hz
      rw [List.mem_cons] at hz
      rcases hz with h1 | h2
      · rw [h1]; omega
      · have := hy z h2; omega

theorem sortDescQ_sorted (l : List (Nat × IndexedTool)) :
    (Search.sortDescQ l).Pairwise (fun a b => b.1 ≤ a.1) := by
  unfold Search.sortDescQ
  induction l with
  | nil => simp
  | cons x xs ih =>
    rw [List.foldr_cons]
    exact sorted_insertDescQ x _ ih

/-- The index (`c8Idx`) and tool used as the concrete C8 witness. -/
def c8Tool : IndexedTool :=
  { server_name := "w", tool_name := "weather",
    namespaced_name := "w__weather", description := "hourly forecast",
    input_schema := {}, searchable_text := "weather hourly forecast" }

def c8Idx : SearchState := [("w__weather", c8Tool)]

/-- The two tools of the C8 tie counterexample, indexed from metadata
(empty schema, so `searchable_text` is the unweighted `name desc` join).
With query `"alpha"`: tool A matches in the description only (the first
occurrence sits past the first 100 characters) with five occurrences in
`searchable_text`, for a pre-scaling score of 15 + 5*0.5 = 17.5 under the
×1.8 rule; tool B matches in the name (plus startswith, seventeen
occurrences in `searchable_text`, and the partial-word boost) for
8 + 4 + 17*0.5 + 2 = 22.5 under the ×1.4 rule.  Exactly,
17.5 * 9/5 = 22.5 * 7/5 = 31.5; in doubles, 17.5 * 1.8 is exactly 31.5
while 22.5 * 1.4 rounds to 31.499999999999996. -/
def c8NameA : String := "zzzz"

def c8DescA : String :=
  "xxxx xxxx xxxx xxxx xxxx xxxx xxxx xxxx xxxx xxxx xxxx xxxx xxxx xxxx xxxx xxxx xxxx xxxx xxxx xxxx xxxx alpha alpha alpha alpha alpha"

def c8NameB : String :=
  "alphaalphaalphaalphaalphaalphaalphaalphaalphaalphaalphaalphaalphaalphaalphaalphaalpha"

def c8ToolA : IndexedTool :=
  { server_name := "s", tool_name := c8NameA,
    namespaced_name := "s__" ++ c8NameA, description := c8DescA,
    input_schema := {},
    searchable_text := Search.buildSearchableText false c8NameA c8DescA {} }

def c8ToolB : IndexedTool :=
  { server_name := "s", tool_name := c8NameB,
    namespaced_name := "s__" ++ c8NameB, description := "tide table",
    input_schema := {},
    searchable_text :=
      Search.buildSearchableText false c8NameB "tide table" {} }

/-- The corpus inserts B before A. -/
def c8Corpus : SearchState :=
  [("s__" ++ c8NameB, c8ToolB), ("s__" ++ c8NameA, c8ToolA)]

set_option maxRecDepth 40000 in
/-- **C8, counterexample.**  The claim's "ties broken by insertion order"
clause is false of the program.  On `c8Corpus` (tool B indexed before
tool A) with query `"alpha"`, the exact scores tie (both 31.5, i.e. 315
tenths), so the claimed ordering returns B first — as the exact-score
pipeline `searchBm25` indeed does.  But the program computes the final
scaling in doubles: A scores exactly 31.5 under `*= 1.8` while B scores
31.499999999999996 under `*= 1.4`, so `search_bm25` sorts A strictly
first, against insertion order (`searchBm25F64`, the bit-exact double
model). -/
theorem c8_bm25_tie_counterexample :
    Search.calculateBm25Score "alpha" c8ToolA = 315 ∧
    Search.calculateBm25Score "alpha" c8ToolB = 315 ∧
    (Search.searchBm25 "alpha" 5 c8Corpus).map (fun r => r.tool_name) =
      [c8NameB, c8NameA] ∧
    Search.calculateBm25ScoreF64 "alpha" c8ToolB <
      Search.calculateBm25ScoreF64 "alpha" c8ToolA ∧
    (Search.searchBm25F64 "alpha" 5 c8Corpus).map (fun r => r.tool_name) =
      [c8NameA, c8NameB] := by
  refine ⟨by decide, by decide, by decide, by decide, by decide⟩

/-- **C8 (amended).**  The BM25 scorer and `search_bm25` result shape
under IEEE-double semantics: (1) the exact-arithmetic reading of the
source's accumulator `_calculate_bm25_score` equals the claim's
per-keyword sum `bm25SpecScore` — per extracted keyword: +8 for name
containment plus +4 for startswith, +15 for description containment plus
+5 within the first 100 characters, +0.5 per occurrence in
`searchable_text`, the semantic-equivalents boosts (+5 name / +8
description), the partial-word boosts (+2 / +1), then only the first
matching post-scaling rule — in tenths; (2) the double-semantics scorer
(same sums, which doubles accumulate exactly, with the ×1.8 / ×1.4
post-scalings and the 0.7 threshold rounded once to 53 significant bits)
equals the same per-keyword sum followed by the rounded scaling; (3)
`search_bm25` returns exactly the positively-scored tools in index order,
stable-sorted by descending double score, truncated to `limit`, as
references; (4) at most `limit` results are returned; (5) the sort is
non-increasing in the double score, the stable insertion breaking ties of
equal doubles — not of equal exact scores — by insertion order; (6) every
scored entry has a positive score, carries the score of its own tool, and
its tool comes from the index. -/
theorem c8_bm25_amended :
    (∀ (q : String) (t : IndexedTool),
        Search.calculateBm25Score q t = Search.bm25SpecScore q t) ∧
    (∀ (q : String) (t : IndexedTool),
        Search.calculateBm25ScoreF64 q t = Search.bm25SpecScoreF64 q t) ∧
    (∀ (q : String) (limit : Nat) (idx : SearchState),
        Search.searchBm25F64 q limit idx =
          ((Search.sortDescQ
              ((idx.map Prod.snd).filterMap
                (fun t =>
                  if Search.bm25SpecScoreF64 q t > 0
                  then some (Search.bm25SpecScoreF64 q t, t) else none))).take
            limit).map (fun p => Search.toRef p.2)) ∧
    (∀ (q : String) (limit : Nat) (idx : SearchState),
        (Search.searchBm25F64 q limit idx).length ≤ limit) ∧
    (∀ (l : List (Nat × IndexedTool)),
        (Search.sortDescQ l).Pairwise (fun a b => b.1 ≤ a.1)) ∧
    (∀ (q : String) (idx : SearchState) (p : Nat × IndexedTool),
        p ∈ (idx.map Prod.snd).filterMap
            (fun t =>
              if Search.bm25SpecScoreF64 q t > 0
              then some (Search.bm25SpecScoreF64 q t, t) else none) →
        0 < p.1 ∧ p.1 = Search.bm25SpecScoreF64 q p.2 ∧
          p.2 ∈ idx.map Prod.snd) := by
  have hfun : ∀ (q : String),
      (fun t : IndexedTool =>
        let s := Search.calculateBm25ScoreF64 q t
        if s > 0 then some (s, t) else none) =
      (fun t => if Search.bm25SpecScoreF64 q t > 0
        then some (Search.bm25SpecScoreF64 q t, t) else none) := by
    intro q
    funext t
    simp only [calculateBm25ScoreF64_eq_spec]
  refine ⟨calculateBm25Score_eq_spec, calculateBm25ScoreF64_eq_spec, ?_, ?_,
    sortDescQ_sorted, ?_⟩
  · intro q limit idx
    unfold Search.searchBm25F64
    rw [hfun]
  · intro q limit idx
    unfold Search.searchBm25F64
    rw [List.length_map, List.length_take]
    omega
  · intro q idx p hp
    rw [List.mem_filterMap] at hp
    obtain ⟨t, ht, hf⟩ := hp
    by_cases hs : Search.bm25SpecScoreF64 q t > 0
    · rw [if_pos hs] at hf
      cases hf
      exact ⟨hs, rfl, ht⟩
    · rw [if_neg hs] at hf
      cases hf

/-- Concrete instantiation of the amended C8's conjunct (6): the single
weather tool is kept with its own positive double score. -/
theorem c8_bm25_amended_witness :
    ((Search.bm25SpecScoreF64 "weather" c8Tool, c8Tool) ∈
      (c8Idx.map Prod.snd).filterMap
        (fun t =>
          if Search.bm25SpecScoreF64 "weather" t > 0
          then some (Search.bm25SpecScoreF64 "weather" t, t) else none)) ∧
    (0 < (Search.bm25SpecScoreF64 "weather" c8Tool, c8Tool).1 ∧
      (Search.bm25SpecScoreF64 "weather" c8Tool, c8Tool).1 =
        Search.bm25SpecScoreF64 "weather"
          (Search.bm25SpecScoreF64 "weather" c8Tool, c8Tool).2 ∧
      (Search.bm25SpecScoreF64 "weather" c8Tool, c8Tool).2 ∈
        c8Idx.map Prod.snd) :=
  ⟨by decide,
   c8_bm25_amended.2.2.2.2.2 "weather" c8Idx
     (Search.bm25SpecScoreF64 "weather" c8Tool, c8Tool) (by decide)⟩

end McpGateway
